import Mathlib

/-!
Verification of the drop-card repository's persistence-and-transform layer.

Strings from the JavaScript source are modelled as `List Char`.  JavaScript
`String.prototype.replace` with a global literal pattern is modelled by
`replaceAll` below (leftmost, non-overlapping, replacement text not
rescanned), which is exactly the semantics of `value.replace(/pat/g, rep)`
for a literal pattern.  Absent (`undefined`/`null`) optional fields are
modelled as `none`; JavaScript truthiness of a string field (`if (card.x)`)
is `optTruthy` (absent and the empty string are falsy).
-/

namespace DropCard

theorem isPrefixOf_length_le :
    ∀ (p s : List Char), p.isPrefixOf s = true → p.length ≤ s.length
  | [], _, _ => by simp
  | _ :: _, [], h => by simp only [List.isPrefixOf] at h; exact absurd h (by simp)
  | a :: ps, b :: ss, h => by
    simp only [List.isPrefixOf, Bool.and_eq_true] at h
    simpa using isPrefixOf_length_le ps ss h.2

/-- Scanner for `replaceAll`.  With skip counter `0` it looks for a match
of `pat` at the current position, emits `rep` on a match and then skips
the remaining `pat.length - 1` matched characters; otherwise it copies
one character. -/
def replaceAllAux (pat rep : List Char) : List Char → Nat → List Char
  | [], _ => []
  | c :: cs, 0 =>
    if pat ≠ [] ∧ pat.isPrefixOf (c :: cs) then
      rep ++ replaceAllAux pat rep cs (pat.length - 1)
    else
      c :: replaceAllAux pat rep cs 0
  | _ :: cs, k + 1 => replaceAllAux pat rep cs k

/-- Leftmost non-overlapping replacement of every occurrence of `pat` by
`rep` in `s`, the semantics of JavaScript `s.replace(/pat/g, rep)` for a
literal pattern: at each position, if `pat` matches, it is replaced and
scanning resumes after the replacement text (which is not rescanned);
otherwise one character is copied. -/
def replaceAll (s pat rep : List Char) : List Char :=
  replaceAllAux pat rep s 0

theorem replaceAllAux_skip (pat rep : List Char) :
    ∀ (k : Nat) (s : List Char),
      replaceAllAux pat rep s k = replaceAllAux pat rep (s.drop k) 0
  | 0, s => by simp
  | k + 1, [] => by simp [replaceAllAux]
  | k + 1, _ :: cs => by
    rw [replaceAllAux, List.drop_succ_cons, replaceAllAux_skip pat rep k cs]

theorem replaceAll_cons_ne (c : Char) (s pat rep : List Char)
    (h : pat.isPrefixOf (c :: s) = false) :
    replaceAll (c :: s) pat rep = c :: replaceAll s pat rep := by
  rw [replaceAll, replaceAllAux, if_neg (by simp [h]), replaceAll]

theorem replaceAll_of_isPrefixOf (s pat rep : List Char) (hpat : pat ≠ [])
    (h : pat.isPrefixOf s = true) :
    replaceAll s pat rep = rep ++ replaceAll (s.drop pat.length) pat rep := by
  rcases s with _ | ⟨c, cs⟩
  · rcases pat with _ | ⟨p, ps⟩
    · exact absurd rfl hpat
    · exact absurd h (by simp [List.isPrefixOf])
  · rw [replaceAll, replaceAllAux, if_pos ⟨hpat, h⟩,
      replaceAllAux_skip pat rep (pat.length - 1) cs]
    have hlen : 0 < pat.length := List.length_pos.mpr hpat
    have : (c :: cs).drop pat.length = cs.drop (pat.length - 1) := by
      rcases pat with _ | ⟨p, ps⟩
      · exact absurd rfl hpat
      · simp
    rw [this, replaceAll]

/-- JavaScript truthiness of an optional string: `undefined`, `null` and
the empty string are falsy. -/
def optTruthy : Option (List Char) → Bool
  | some (_ :: _) => true
  | _ => false

/-- `escapeVCardValue` from src/utils/qrGenerator.js:
`value.replace(/\\/g,'\\\\').replace(/,/g,'\\,').replace(/;/g,'\\;').replace(/\n/g,'\\n')`,
with the guard `if (!value) return ''`. -/
def escapeVCardValue (value : List Char) : List Char :=
  if value = [] then []
  else
    replaceAll
      (replaceAll
        (replaceAll
          (replaceAll value ['\\'] ['\\', '\\'])
          [','] ['\\', ','])
        [';'] ['\\', ';'])
      ['\n'] ['\\', 'n']

/-- `unescapeVCardValue` from src/utils/qrGenerator.js:
`value.replace(/\\n/g,'\n').replace(/\\;/g,';').replace(/\\,/g,',').replace(/\\\\/g,'\\')`,
with the guard `if (!value) return ''`. -/
def unescapeVCardValue (value : List Char) : List Char :=
  if value = [] then []
  else
    replaceAll
      (replaceAll
        (replaceAll
          (replaceAll value ['\\', 'n'] ['\n'])
          ['\\', ';'] [';'])
        ['\\', ','] [','])
      ['\\', '\\'] ['\\']

/-- `true` when the string has no backslash immediately followed by the
letter `n`.  Such a pair is the one shape the unescape pass misreads
(its `\n`-rule fires on the second backslash of an escaped backslash). -/
def noBackslashN : List Char → Bool
  | [] => true
  | [_] => true
  | c :: c2 :: rest => !(c = '\\' && c2 = 'n') && noBackslashN (c2 :: rest)

/-- `true` when the string contains a comma, semicolon, backslash or
newline, the class of strings the escape round-trip claim quantifies
over. -/
def hasSpecialChar (s : List Char) : Bool :=
  s.any fun c => c = ',' || c = ';' || c = '\\' || c = '\n'

/-- Concatenation of `f` over a list of characters. -/
def concatMap (f : Char → List Char) : List Char → List Char
  | [] => []
  | c :: cs => f c ++ concatMap f cs

/-- The per-character effect of the four escape passes. -/
def escChar (c : Char) : List Char :=
  if c = '\\' then ['\\', '\\']
  else if c = ',' then ['\\', ',']
  else if c = ';' then ['\\', ';']
  else if c = '\n' then ['\\', 'n']
  else [c]

/-- Per-character state after the unescape `\n` pass: newline restored,
backslash, comma and semicolon still escaped. -/
def tok1 (c : Char) : List Char :=
  if c = '\\' then ['\\', '\\']
  else if c = ',' then ['\\', ',']
  else if c = ';' then ['\\', ';']
  else [c]

/-- Per-character state after the unescape `\;` pass. -/
def tok2 (c : Char) : List Char :=
  if c = '\\' then ['\\', '\\']
  else if c = ',' then ['\\', ',']
  else [c]

/-- Per-character state after the unescape `\,` pass. -/
def tok3 (c : Char) : List Char :=
  if c = '\\' then ['\\', '\\']
  else [c]

theorem replaceAll_nil (pat rep : List Char) : replaceAll [] pat rep = [] := rfl

/-- A single-character global replacement acts independently on every
character. -/
theorem replaceAll_single (a : Char) (rep : List Char) :
    ∀ s : List Char,
      replaceAll s [a] rep = concatMap (fun c => if c = a then rep else [c]) s
  | [] => by simp [replaceAll_nil, concatMap]
  | c :: cs => by
    by_cases hca : c = a
    · have hpre : [a].isPrefixOf (c :: cs) = true := by
        simp [List.isPrefixOf, hca]
      rw [replaceAll_of_isPrefixOf _ _ _ (by simp) hpre]
      simp [concatMap, hca, replaceAll_single a rep cs]
    · have hpre : [a].isPrefixOf (c :: cs) = false := by
        simp [List.isPrefixOf]
        exact fun h => absurd h.symm hca
      rw [replaceAll_cons_ne _ _ _ _ hpre]
      simp [concatMap, hca, replaceAll_single a rep cs]

theorem concatMap_append (f : Char → List Char) (l₁ l₂ : List Char) :
    concatMap f (l₁ ++ l₂) = concatMap f l₁ ++ concatMap f l₂ := by
  induction l₁ with
  | nil => simp [concatMap]
  | cons c cs ih => simp [concatMap, ih]

theorem concatMap_concatMap (f g : Char → List Char) (s : List Char) :
    concatMap g (concatMap f s) = concatMap (fun c => concatMap g (f c)) s := by
  induction s with
  | nil => simp [concatMap]
  | cons c cs ih => simp [concatMap, concatMap_append, ih]

/-- The four escape passes together act on each character independently:
backslash, comma, semicolon and newline become their two-character escape
sequences, everything else is copied. -/
theorem escape_eq_concatMap (v : List Char) :
    escapeVCardValue v = concatMap escChar v := by
  rcases v with _ | ⟨c, cs⟩
  · simp [escapeVCardValue, concatMap]
  · rw [escapeVCardValue, if_neg (by simp)]
    rw [replaceAll_single, replaceAll_single, replaceAll_single, replaceAll_single]
    rw [concatMap_concatMap, concatMap_concatMap, concatMap_concatMap]
    apply congrFun
    apply congrArg
    funext a
    by_cases h1 : a = '\\' <;> by_cases h2 : a = ',' <;> by_cases h3 : a = ';' <;>
      by_cases h4 : a = '\n' <;>
      simp_all [escChar, concatMap]

theorem noBackslashN_tail {c : Char} {cs : List Char}
    (h : noBackslashN (c :: cs) = true) : noBackslashN cs = true := by
  rcases cs with _ | ⟨c2, rest⟩
  · rfl
  · rw [noBackslashN, Bool.and_eq_true] at h
    exact h.2

theorem noBackslashN_head {cs : List Char}
    (h : noBackslashN ('\\' :: cs) = true) :
    ∀ c2 cs2, cs = c2 :: cs2 → c2 ≠ 'n' := by
  intro c2 cs2 hcs
  subst hcs
  rw [noBackslashN, Bool.and_eq_true] at h
  intro hn
  subst hn
  simp at h

theorem escChar_head_not_n (cs : List Char)
    (h : ∀ c2 cs2, cs = c2 :: cs2 → c2 ≠ 'n') :
    ['n'].isPrefixOf (concatMap escChar cs) = false := by
  rcases cs with _ | ⟨c2, cs2⟩
  · simp [concatMap, List.isPrefixOf]
  · have hc2 : c2 ≠ 'n' := h c2 cs2 rfl
    by_cases h1 : c2 = '\\' <;> by_cases h2 : c2 = ',' <;> by_cases h3 : c2 = ';' <;>
      by_cases h4 : c2 = '\n' <;>
      simp_all [escChar, concatMap, List.isPrefixOf]
    exact Ne.symm hc2

theorem tok1_head_not_semi (cs : List Char) :
    [';'].isPrefixOf (concatMap tok1 cs) = false := by
  rcases cs with _ | ⟨c2, cs2⟩
  · simp [concatMap, List.isPrefixOf]
  · by_cases h1 : c2 = '\\' <;> by_cases h2 : c2 = ',' <;> by_cases h3 : c2 = ';' <;>
      simp_all [tok1, concatMap, List.isPrefixOf]
    exact Ne.symm h3

theorem tok2_head_not_comma (cs : List Char) :
    [','].isPrefixOf (concatMap tok2 cs) = false := by
  rcases cs with _ | ⟨c2, cs2⟩
  · simp [concatMap, List.isPrefixOf]
  · by_cases h1 : c2 = '\\' <;> by_cases h2 : c2 = ',' <;>
      simp_all [tok2, concatMap, List.isPrefixOf]
    exact Ne.symm h2

/-- Unescape pass 1 (`\n` → newline) on escaped text, in the absence of a
backslash-`n` pair in the original value, restores exactly the escaped
newlines. -/
theorem unescape_pass1 :
    ∀ v : List Char, noBackslashN v = true →
      replaceAll (concatMap escChar v) ['\\', 'n'] ['\n'] = concatMap tok1 v
  | [], _ => by simp [concatMap, replaceAll_nil]
  | c :: cs, h => by
    have ih := unescape_pass1 cs (noBackslashN_tail h)
    by_cases h1 : c = '\\'
    · subst h1
      have hw := escChar_head_not_n cs (noBackslashN_head h)
      rw [show concatMap escChar ('\\' :: cs) = '\\' :: '\\' :: concatMap escChar cs by
            simp [concatMap, escChar]]
      rw [replaceAll_cons_ne _ _ _ _ (by simp [List.isPrefixOf])]
      rw [replaceAll_cons_ne _ _ _ _ (by simp [List.isPrefixOf, hw])]
      rw [ih]
      simp [concatMap, tok1]
    · by_cases h2 : c = ','
      · subst h2
        rw [show concatMap escChar (',' :: cs) = '\\' :: ',' :: concatMap escChar cs by
              simp [concatMap, escChar]]
        rw [replaceAll_cons_ne _ _ _ _ (by simp [List.isPrefixOf])]
        rw [replaceAll_cons_ne _ _ _ _ (by simp [List.isPrefixOf])]
        rw [ih]
        simp [concatMap, tok1]
      · by_cases h3 : c = ';'
        · subst h3
          rw [show concatMap escChar (';' :: cs) = '\\' :: ';' :: concatMap escChar cs by
                simp [concatMap, escChar]]
          rw [replaceAll_cons_ne _ _ _ _ (by simp [List.isPrefixOf])]
          rw [replaceAll_cons_ne _ _ _ _ (by simp [List.isPrefixOf])]
          rw [ih]
          simp [concatMap, tok1]
        · by_cases h4 : c = '\n'
          · subst h4
            rw [show concatMap escChar ('\n' :: cs) = '\\' :: 'n' :: concatMap escChar cs by
                  simp [concatMap, escChar]]
            rw [replaceAll_of_isPrefixOf _ _ _ (by simp) (by simp [List.isPrefixOf])]
            rw [show ('\\' :: 'n' :: concatMap escChar cs).drop (['\\', 'n'].length)
                  = concatMap escChar cs by simp]
            rw [ih]
            simp [concatMap, tok1, h1, h2, h3]
          · rw [show concatMap escChar (c :: cs) = c :: concatMap escChar cs by
                  simp [concatMap, escChar, h1, h2, h3, h4]]
            rw [replaceAll_cons_ne _ _ _ _ (by simp [List.isPrefixOf]; intro hc; exact absurd hc.symm h1)]
            rw [ih]
            simp [concatMap, tok1, h1, h2, h3, h4]

/-- Unescape pass 2 (`\;` → `;`). -/
theorem unescape_pass2 :
    ∀ v : List Char,
      replaceAll (concatMap tok1 v) ['\\', ';'] [';'] = concatMap tok2 v
  | [] => by simp [concatMap, replaceAll_nil]
  | c :: cs => by
    have ih := unescape_pass2 cs
    by_cases h1 : c = '\\'
    · subst h1
      rw [show concatMap tok1 ('\\' :: cs) = '\\' :: '\\' :: concatMap tok1 cs by
            simp [concatMap, tok1]]
      rw [replaceAll_cons_ne _ _ _ _ (by simp [List.isPrefixOf])]
      rw [replaceAll_cons_ne _ _ _ _ (by simp [List.isPrefixOf, tok1_head_not_semi cs])]
      rw [ih]
      simp [concatMap, tok2]
    · by_cases h2 : c = ','
      · subst h2
        rw [show concatMap tok1 (',' :: cs) = '\\' :: ',' :: concatMap tok1 cs by
              simp [concatMap, tok1]]
        rw [replaceAll_cons_ne _ _ _ _ (by simp [List.isPrefixOf])]
        rw [replaceAll_cons_ne _ _ _ _ (by simp [List.isPrefixOf])]
        rw [ih]
        simp [concatMap, tok2]
      · by_cases h3 : c = ';'
        · subst h3
          rw [show concatMap tok1 (';' :: cs) = '\\' :: ';' :: concatMap tok1 cs by
                simp [concatMap, tok1]]
          rw [replaceAll_of_isPrefixOf _ _ _ (by simp) (by simp [List.isPrefixOf])]
          rw [show ('\\' :: ';' :: concatMap tok1 cs).drop (['\\', ';'].length)
                = concatMap tok1 cs by simp]
          rw [ih]
          simp [concatMap, tok2, h1, h2]
        · rw [show concatMap tok1 (c :: cs) = c :: concatMap tok1 cs by
                simp [concatMap, tok1, h1, h2, h3]]
          rw [replaceAll_cons_ne _ _ _ _ (by simp [List.isPrefixOf]; intro hc; exact absurd hc.symm h1)]
          rw [ih]
          simp [concatMap, tok2, h1, h2, h3]

/-- Unescape pass 3 (`\,` → `,`). -/
theorem unescape_pass3 :
    ∀ v : List Char,
      replaceAll (concatMap tok2 v) ['\\', ','] [','] = concatMap tok3 v
  | [] => by simp [concatMap, replaceAll_nil]
  | c :: cs => by
    have ih := unescape_pass3 cs
    by_cases h1 : c = '\\'
    · subst h1
      rw [show concatMap tok2 ('\\' :: cs) = '\\' :: '\\' :: concatMap tok2 cs by
            simp [concatMap, tok2]]
      rw [replaceAll_cons_ne _ _ _ _ (by simp [List.isPrefixOf])]
      rw [replaceAll_cons_ne _ _ _ _ (by simp [List.isPrefixOf, tok2_head_not_comma cs])]
      rw [ih]
      simp [concatMap, tok3]
    · by_cases h2 : c = ','
      · subst h2
        rw [show concatMap tok2 (',' :: cs) = '\\' :: ',' :: concatMap tok2 cs by
              simp [concatMap, tok2]]
        rw [replaceAll_of_isPrefixOf _ _ _ (by simp) (by simp [List.isPrefixOf])]
        rw [show ('\\' :: ',' :: concatMap tok2 cs).drop (['\\', ','].length)
              = concatMap tok2 cs by simp]
        rw [ih]
        simp [concatMap, tok3, h1]
      · rw [show concatMap tok2 (c :: cs) = c :: concatMap tok2 cs by
              simp [concatMap, tok2, h1, h2]]
        rw [replaceAll_cons_ne _ _ _ _ (by simp [List.isPrefixOf]; intro hc; exact absurd hc.symm h1)]
        rw [ih]
        simp [concatMap, tok3, h1, h2]

/-- Unescape pass 4 (`\\` → `\`) recovers the original value. -/
theorem unescape_pass4 :
    ∀ v : List Char, replaceAll (concatMap tok3 v) ['\\', '\\'] ['\\'] = v
  | [] => by simp [concatMap, replaceAll_nil]
  | c :: cs => by
    have ih := unescape_pass4 cs
    by_cases h1 : c = '\\'
    · subst h1
      rw [show concatMap tok3 ('\\' :: cs) = '\\' :: '\\' :: concatMap tok3 cs by
            simp [concatMap, tok3]]
      rw [replaceAll_of_isPrefixOf _ _ _ (by simp) (by simp [List.isPrefixOf])]
      rw [show ('\\' :: '\\' :: concatMap tok3 cs).drop (['\\', '\\'].length)
            = concatMap tok3 cs by simp]
      rw [ih]
      rfl
    · rw [show concatMap tok3 (c :: cs) = c :: concatMap tok3 cs by
            simp [concatMap, tok3, h1]]
      rw [replaceAll_cons_ne _ _ _ _ (by simp [List.isPrefixOf]; intro hc; exact absurd hc.symm h1)]
      rw [ih]

theorem escChar_ne_nil (c : Char) : escChar c ≠ [] := by
  by_cases h1 : c = '\\' <;> by_cases h2 : c = ',' <;> by_cases h3 : c = ';' <;>
    by_cases h4 : c = '\n' <;> simp_all [escChar]

/-- The escape/unescape round trip is the identity on every value with no
backslash-`n` pair. -/
theorem escape_unescape_id (v : List Char) (h : noBackslashN v = true) :
    unescapeVCardValue (escapeVCardValue v) = v := by
  rcases v with _ | ⟨c, cs⟩
  · simp [escapeVCardValue, unescapeVCardValue]
  · have hne : escapeVCardValue (c :: cs) ≠ [] := by
      rw [escape_eq_concatMap]
      simp only [concatMap, ne_eq, List.append_eq_nil]
      intro hcontra
      exact escChar_ne_nil c hcontra.1
    rw [unescapeVCardValue, if_neg hne, escape_eq_concatMap,
      unescape_pass1 _ h, unescape_pass2, unescape_pass3, unescape_pass4]

/-- C2 counterexample: the two-character value backslash-`n` contains a
backslash, so the claim quantifies over it, yet escape (`\n` → `\\n`)
followed by unescape (whose `\n`-rule fires on the second backslash,
yielding backslash-newline) does not return it unchanged. -/
theorem escape_roundtrip_counterexample :
    hasSpecialChar ['\\', 'n'] = true ∧
      unescapeVCardValue (escapeVCardValue ['\\', 'n']) ≠ ['\\', 'n'] := by
  constructor
  · decide
  · decide

/-- C2 (amended): for every field value containing a comma, semicolon,
backslash or newline, but with no backslash immediately followed by the
letter `n`, escaping with `escapeVCardValue` and unescaping with
`unescapeVCardValue` returns the original string unchanged. -/
theorem escape_roundtrip (v : List Char) (_hs : hasSpecialChar v = true)
    (hn : noBackslashN v = true) :
    unescapeVCardValue (escapeVCardValue v) = v :=
  escape_unescape_id v hn

/-- Witness for the amended C2 theorem at the concrete value `a,b;c\d`. -/
theorem escape_roundtrip_witness :
    hasSpecialChar ['a', ',', 'b', ';', 'c', '\\', 'd'] = true ∧
      unescapeVCardValue (escapeVCardValue ['a', ',', 'b', ';', 'c', '\\', 'd'])
        = ['a', ',', 'b', ';', 'c', '\\', 'd'] :=
  ⟨by decide, escape_roundtrip ['a', ',', 'b', ';', 'c', '\\', 'd'] (by decide) (by decide)⟩

/-! ## Storage layer (StorageService)

AsyncStorage is modelled by a state record `St` holding the JSON-decoded
value at each of the five storage keys; a storage read/write pair
collapses to reading/updating the corresponding field.  `uuid.v4()` and
`new Date().toISOString()` are passed in as parameters.  No storage
operation fails in the model (the catch-paths of the source are the
storage-failure paths, out of scope for the claims below). -/

/-- ASCII whitespace (plus NBSP), the common case of the character class
JavaScript `trim` and `\s` use. -/
def isJsWhitespace (c : Char) : Bool :=
  c = ' ' || c = '\t' || c = '\n' || c = '\r' || c = '\x0b' || c = '\x0c' || c = '\xa0'

/-- JavaScript `String.prototype.trim`. -/
def jsTrim (s : List Char) : List Char :=
  ((s.dropWhile isJsWhitespace).reverse.dropWhile isJsWhitespace).reverse

/-- JavaScript `String.prototype.split` with a single-character literal
separator. -/
def splitOnChar (sep : Char) : List Char → List (List Char)
  | [] => [[]]
  | c :: cs =>
    if c = sep then [] :: splitOnChar sep cs
    else
      match splitOnChar sep cs with
      | [] => [[c]]
      | l :: ls => (c :: l) :: ls

/-- Decides `/^[^\s@]+@[^\s@]+\.[^\s@]+$/.test(email)`.  All three
character classes exclude whitespace and `@`, so the string matches
exactly when it splits at a unique `@` into a nonempty whitespace-free
local part and a whitespace-free domain part containing a `.` that is
neither its first nor its last character. -/
def emailRegexTest (s : List Char) : Bool :=
  match splitOnChar '@' s with
  | [localPart, domainPart] =>
    !localPart.isEmpty && !(localPart.any isJsWhitespace) &&
      !(domainPart.any isJsWhitespace) &&
      ((domainPart.drop 1).dropLast.contains '.')
  | _ => false

/-- A business-card record.  Every field a screen may leave out is an
`Option`; `none` is JavaScript `undefined`. -/
structure Card where
  id : Option (List Char) := none
  name : Option (List Char) := none
  title : Option (List Char) := none
  company : Option (List Char) := none
  email : Option (List Char) := none
  phone : Option (List Char) := none
  website : Option (List Char) := none
  linkedin : Option (List Char) := none
  twitter : Option (List Char) := none
  bio : Option (List Char) := none
  photoUri : Option (List Char) := none
  createdAt : Option (List Char) := none
  updatedAt : Option (List Char) := none
deriving Repr, DecidableEq

/-- A contact record: a card-shaped sub-record plus contact-specific
fields. -/
structure Contact where
  id : Option (List Char) := none
  cardData : Card := {}
  notes : Option (List Char) := none
  tags : Option (List (List Char)) := none
  meetingContext : Option (List Char) := none
  voiceNoteUri : Option (List Char) := none
  createdAt : Option (List Char) := none
  updatedAt : Option (List Char) := none
deriving Repr, DecidableEq

/-- The settings record; `DEFAULT_SETTINGS` is the default instance. -/
structure Settings where
  theme : List Char := ['l', 'i', 'g', 'h', 't']
  defaultCardId : Option (List Char) := none
  aiApiKey : Option (List Char) := some []
  enableVoiceNotes : Bool := true
deriving Repr, DecidableEq

/-- The JSON-decoded contents of the five AsyncStorage keys. -/
structure St where
  userCard : Option Card := none
  userCards : List Card := []
  contacts : List Contact := []
  settings : Settings := {}
  draftCard : Option Card := none
deriving Repr, DecidableEq

/-- `validateCard`: required non-blank `name`; `email`, when truthy, must
pass the basic regex. -/
def validateCard (card : Card) : Bool :=
  match card.name with
  | none => false
  | some nm =>
    if nm = [] || jsTrim nm = [] then false
    else
      match card.email with
      | some em@(_ :: _) => emailRegexTest em
      | _ => true

/-- `validateContact`: `cardData.name` must be truthy and non-blank. -/
def validateContact (contact : Contact) : Bool :=
  match contact.cardData.name with
  | none => false
  | some nm => !(nm = [] || jsTrim nm = [])

/-- `userCards[existingCardIndex] = card` after
`findIndex(c => c.id === card.id)` found a match. -/
def replaceFirstById : List Card → Card → List Card
  | [], _ => []
  | c :: cs, card =>
    if c.id = card.id then card :: cs else c :: replaceFirstById cs card

/-- `StorageService.saveCard`: validate, assign `id`/`createdAt` when
absent, stamp `updatedAt`, store as the primary card, upsert into the
collection, and make this card the default when it is the first one and
no default is set.  `newId` stands for `uuid.v4()`, `now` for
`new Date().toISOString()`.  The catch-path returns `(none, st)`. -/
def saveCard (st : St) (cardData : Card) (newId now : List Char) :
    Option Card × St :=
  if !validateCard cardData then (none, st)
  else
    let card : Card :=
      { cardData with
        id := some (match cardData.id with
          | some i@(_ :: _) => i
          | _ => newId)
        createdAt := some (match cardData.createdAt with
          | some t@(_ :: _) => t
          | _ => now)
        updatedAt := some now }
    let userCards :=
      if st.userCards.any (fun c => c.id = card.id) then
        replaceFirstById st.userCards card
      else
        st.userCards ++ [card]
    let settings :=
      if userCards.length = 1 && !(optTruthy st.settings.defaultCardId) then
        { st.settings with defaultCardId := card.id }
      else st.settings
    (some card,
      { st with userCard := some card, userCards := userCards, settings := settings })

/-- `StorageService.deleteCard`: filter the collection by id, repoint or
clear the primary slot if it held the deleted id, repoint or clear
`settings.defaultCardId` if it was the deleted id, and return `true`. -/
def deleteCard (st : St) (id : List Char) : Bool × St :=
  let cards := st.userCards.filter fun c => c.id ≠ some id
  let userCard :=
    match st.userCard with
    | some primaryCard =>
      if primaryCard.id = some id then
        match cards with
        | c :: _ => some c
        | [] => none
      else some primaryCard
    | none => none
  let settings :=
    if st.settings.defaultCardId = some id then
      { st.settings with
        defaultCardId := match cards with | c :: _ => c.id | [] => none }
    else st.settings
  (true, { st with userCards := cards, userCard := userCard, settings := settings })

/-- `StorageService.getAllContacts`. -/
def getAllContacts (st : St) : List Contact := st.contacts

def lowerList (s : List Char) : List Char := s.map Char.toLower

/-- JavaScript `String.prototype.includes`: `pat` occurs as a contiguous
substring. -/
def listIncludes (pat : List Char) : List Char → Bool
  | [] => pat.isEmpty
  | s@(_ :: cs) => pat.isPrefixOf s || listIncludes pat cs

/-- One disjunct of the search predicate:
`field && field.toLowerCase().includes(normalizedQuery)`. -/
def fieldMatches (normalizedQuery : List Char) : Option (List Char) → Bool
  | some v@(_ :: _) => listIncludes normalizedQuery (lowerList v)
  | _ => false

/-- The filter predicate of `searchContacts`. -/
def contactMatches (normalizedQuery : List Char) (contact : Contact) : Bool :=
  fieldMatches normalizedQuery contact.cardData.name ||
  fieldMatches normalizedQuery contact.cardData.company ||
  fieldMatches normalizedQuery contact.cardData.title ||
  fieldMatches normalizedQuery contact.cardData.email ||
  fieldMatches normalizedQuery contact.notes

/-- `StorageService.searchContacts`: blank query returns the whole
collection, otherwise filter by `query.toLowerCase().trim()`. -/
def searchContacts (st : St) (query : List Char) : List Contact :=
  if query = [] || jsTrim query = [] then getAllContacts st
  else
    st.contacts.filter (contactMatches (jsTrim (lowerList query)))

/-- `escapeCsvField`: falsy fields render as the empty string; a value
containing a comma is wrapped in double quotes. -/
def escapeCsvField (field : Option (List Char)) : List Char :=
  match field with
  | some v@(_ :: _) => if v.contains ',' then '"' :: (v ++ ['"']) else v
  | _ => []

/-- The CSV header row of `exportContactsAsCSV`. -/
def csvHeader : List Char :=
  ("Name,Title,Company,Email,Phone,Website,Notes,Meeting Context," ++
    "Created Date").toList

/-- One data row of `exportContactsAsCSV` (without the trailing newline).
`localeDate` stands for `new Date(createdAt).toLocaleDateString()`. -/
def csvRow (localeDate : Option (List Char) → List Char) (contact : Contact) :
    List Char :=
  List.intercalate [',']
    [escapeCsvField contact.cardData.name,
     escapeCsvField contact.cardData.title,
     escapeCsvField contact.cardData.company,
     escapeCsvField contact.cardData.email,
     escapeCsvField contact.cardData.phone,
     escapeCsvField contact.cardData.website,
     escapeCsvField contact.notes,
     escapeCsvField contact.meetingContext,
     localeDate contact.createdAt]

/-- `StorageService.exportContactsAsCSV`: empty string for an empty
collection, otherwise the header line followed by one newline-terminated
row per contact. -/
def exportContactsAsCSV (localeDate : Option (List Char) → List Char)
    (st : St) : List Char :=
  if st.contacts.length = 0 then []
  else
    csvHeader ++ ['\n'] ++
      (st.contacts.map (fun contact => csvRow localeDate contact ++ ['\n'])).flatten

/-- C4: an input whose `name` is absent or blank, or whose `email` is
present (truthy) but fails the basic `x@y.z` pattern, makes `saveCard`
return `none` and perform no storage write: the primary-card slot, the
card collection and the settings record are all unchanged. -/
theorem saveCard_invalid_is_noop (st : St) (cardData : Card)
    (newId now : List Char)
    (h : cardData.name = none ∨
         (∃ nm, cardData.name = some nm ∧ jsTrim nm = []) ∨
         (optTruthy cardData.email = true ∧
           emailRegexTest (cardData.email.getD []) = false)) :
    saveCard st cardData newId now = (none, st) := by
  have hv : validateCard cardData = false := by
    rcases h with h | ⟨nm, hnm, hblank⟩ | ⟨htr, hreg⟩
    · simp [validateCard, h]
    · simp [validateCard, hnm, hblank]
    · rcases he : cardData.email with _ | (_ | ⟨e, es⟩)
      · rw [he] at htr; simp [optTruthy] at htr
      · rw [he] at htr; simp [optTruthy] at htr
      · rw [he] at hreg
        simp only [Option.getD] at hreg
        rcases hn : cardData.name with _ | nm
        · simp [validateCard, hn]
        · by_cases hb : (nm = [] || jsTrim nm = []) = true
          · simp [validateCard, hn, hb]
          · simp [validateCard, hn, he, hb, hreg]
  simp [saveCard, hv]

/-- Witness for C4 at a blank-name input. -/
theorem saveCard_invalid_is_noop_witness :
    saveCard {} { name := some [' '] } ['x'] ['t'] = (none, {}) :=
  saveCard_invalid_is_noop {} { name := some [' '] } ['x'] ['t']
    (Or.inr (Or.inl ⟨[' '], rfl, by decide⟩))

/-- C10: deleting an id that no card in the collection carries returns
`true` and leaves the state unchanged, under the app invariant that the
primary slot and `settings.defaultCardId`, when set, refer to collection
members (every writer of those keys maintains this). -/
theorem deleteCard_absent_id_noop (st : St) (id : List Char)
    (habs : ∀ c ∈ st.userCards, c.id ≠ some id)
    (hprim : ∀ pc, st.userCard = some pc → pc.id ∈ st.userCards.map Card.id)
    (hdef : ∀ d, st.settings.defaultCardId = some d →
        some d ∈ st.userCards.map Card.id) :
    deleteCard st id = (true, st) := by
  have hfilter : st.userCards.filter (fun c => c.id ≠ some id) = st.userCards := by
    rw [List.filter_eq_self]
    intro c hc
    simpa using habs c hc
  have huc : (match st.userCard with
      | some primaryCard =>
        if primaryCard.id = some id then
          match st.userCards.filter (fun c => c.id ≠ some id) with
          | c :: _ => some c
          | [] => none
        else some primaryCard
      | none => none) = st.userCard := by
    rcases hpc : st.userCard with _ | pc
    · rfl
    · have : pc.id ≠ some id := by
        have hmem := hprim pc hpc
        rcases List.mem_map.mp hmem with ⟨c, hc, hcid⟩
        rw [← hcid]
        exact habs c hc
      simp [this]
  have hset : (if st.settings.defaultCardId = some id then
      { st.settings with
        defaultCardId :=
          match st.userCards.filter (fun c => c.id ≠ some id) with
          | c :: _ => c.id
          | [] => none }
      else st.settings) = st.settings := by
    have : st.settings.defaultCardId ≠ some id := by
      intro heq
      rcases List.mem_map.mp (hdef id heq) with ⟨c, hc, hcid⟩
      exact habs c hc hcid
    simp [this]
  show (true, { st with
      userCards := st.userCards.filter fun c => c.id ≠ some id,
      userCard := _, settings := _ }) = (true, st)
  rw [Prod.mk.injEq]
  refine ⟨rfl, ?_⟩
  rw [St.mk.injEq]
  exact ⟨huc, hfilter, rfl, hset, rfl⟩

/-- Witness for C10: deleting an unknown id from a one-card state. -/
theorem deleteCard_absent_id_noop_witness :
    deleteCard
      { userCard := some { id := some ['a'], name := some ['N'] },
        userCards := [{ id := some ['a'], name := some ['N'] }],
        settings := { defaultCardId := some ['a'] } } ['z']
      = (true,
        { userCard := some { id := some ['a'], name := some ['N'] },
          userCards := [{ id := some ['a'], name := some ['N'] }],
          settings := { defaultCardId := some ['a'] } }) :=
  deleteCard_absent_id_noop _ ['z'] (by decide) (by decide) (by decide)

/-- C5: deleting an id carried by a card in the collection removes it
and returns `true`; if nothing remains, the primary slot is cleared and
`settings.defaultCardId` becomes absent; if the deleted card was the
primary card (resp. the default card) and cards remain, the slot
(resp. `defaultCardId`) is repointed to a surviving card.  The invariant
hypotheses say the primary slot and the default reference, when set,
refer to collection members. -/
theorem deleteCard_present_spec (st : St) (id : List Char)
    (_hmem : ∃ c ∈ st.userCards, c.id = some id)
    (hprim : ∀ pc, st.userCard = some pc → pc.id ∈ st.userCards.map Card.id)
    (hdef : ∀ d, st.settings.defaultCardId = some d →
        some d ∈ st.userCards.map Card.id) :
    (deleteCard st id).1 = true ∧
    (∀ c, c ∈ (deleteCard st id).2.userCards ↔
        c ∈ st.userCards ∧ c.id ≠ some id) ∧
    ((deleteCard st id).2.userCards = [] →
      (deleteCard st id).2.userCard = none ∧
      (deleteCard st id).2.settings.defaultCardId = none) ∧
    ((deleteCard st id).2.userCards ≠ [] →
      (∀ pc, st.userCard = some pc → pc.id = some id →
        ∃ c ∈ (deleteCard st id).2.userCards,
          (deleteCard st id).2.userCard = some c) ∧
      (st.settings.defaultCardId = some id →
        ∃ c ∈ (deleteCard st id).2.userCards,
          (deleteCard st id).2.settings.defaultCardId = c.id)) := by
  refine ⟨rfl, ?_, ?_, ?_⟩
  · intro c
    show c ∈ st.userCards.filter (fun c => c.id ≠ some id) ↔ _
    simp [List.mem_filter]
  · intro hnil
    replace hnil : st.userCards.filter (fun c => c.id ≠ some id) = [] := hnil
    have hall : ∀ c ∈ st.userCards, c.id = some id := by
      intro c hc
      by_contra hne
      have : c ∈ st.userCards.filter (fun c => c.id ≠ some id) := by
        simp [List.mem_filter, hc, hne]
      rw [hnil] at this
      exact absurd this (List.not_mem_nil c)
    constructor
    · show (match st.userCard with
        | some primaryCard =>
          if primaryCard.id = some id then
            match st.userCards.filter (fun c => c.id ≠ some id) with
            | c :: _ => some c
            | [] => none
          else some primaryCard
        | none => none) = none
      rcases hpc : st.userCard with _ | pc
      · rfl
      · rcases List.mem_map.mp (hprim pc hpc) with ⟨c, hc, hcid⟩
        have hpcid : pc.id = some id := by rw [← hcid]; exact hall c hc
        show (if pc.id = some id then
            match st.userCards.filter (fun c => c.id ≠ some id) with
            | c :: _ => some c
            | [] => none
          else some pc) = none
        rw [if_pos hpcid, hnil]
    · show (if st.settings.defaultCardId = some id then
          { st.settings with
            defaultCardId :=
              match st.userCards.filter (fun c => c.id ≠ some id) with
              | c :: _ => c.id
              | [] => none }
          else st.settings).defaultCardId = none
      rcases hd : st.settings.defaultCardId with _ | d
      · simp [hd]
      · rcases List.mem_map.mp (hdef d hd) with ⟨c, hc, hcid⟩
        have hdi : d = id := by
          have h1 := hall c hc
          rw [h1] at hcid
          exact (Option.some.inj hcid).symm
        subst hdi
        rw [if_pos rfl]
        show (match st.userCards.filter (fun c => c.id ≠ some d) with
          | c :: _ => c.id
          | [] => none) = none
        rw [hnil]
  · intro hne
    replace hne : st.userCards.filter (fun c => c.id ≠ some id) ≠ [] := hne
    rcases hc : st.userCards.filter (fun c => c.id ≠ some id) with _ | ⟨c0, rest⟩
    · exact absurd hc hne
    constructor
    · intro pc hpc hpcid
      refine ⟨c0, ?_, ?_⟩
      · show c0 ∈ st.userCards.filter (fun c => c.id ≠ some id)
        rw [hc]; exact List.mem_cons_self c0 rest
      · show (match st.userCard with
          | some primaryCard =>
            if primaryCard.id = some id then
              match st.userCards.filter (fun c => c.id ≠ some id) with
              | c :: _ => some c
              | [] => none
            else some primaryCard
          | none => none) = some c0
        rw [hpc]
        show (if pc.id = some id then
            match st.userCards.filter (fun c => c.id ≠ some id) with
            | c :: _ => some c
            | [] => none
          else some pc) = some c0
        rw [if_pos hpcid, hc]
    · intro hdefid
      refine ⟨c0, ?_, ?_⟩
      · show c0 ∈ st.userCards.filter (fun c => c.id ≠ some id)
        rw [hc]; exact List.mem_cons_self c0 rest
      · show (if st.settings.defaultCardId = some id then
            { st.settings with
              defaultCardId :=
                match st.userCards.filter (fun c => c.id ≠ some id) with
                | c :: _ => c.id
                | [] => none }
            else st.settings).defaultCardId = c0.id
        rw [if_pos hdefid, hc]

/-- A two-card state whose primary and default card has id `a`. -/
def stC5w : St :=
  { userCard := some { id := some ['a'], name := some ['A'] },
    userCards := [{ id := some ['a'], name := some ['A'] },
                  { id := some ['b'], name := some ['B'] }],
    settings := { defaultCardId := some ['a'] } }

/-- Witness for C5: deleting the default and primary card of a two-card
state. -/
theorem deleteCard_present_spec_witness :
    ((deleteCard stC5w ['a']).1 = true ∧
      (∀ c, c ∈ (deleteCard stC5w ['a']).2.userCards ↔
          c ∈ stC5w.userCards ∧ c.id ≠ some ['a']) ∧
      ((deleteCard stC5w ['a']).2.userCards = [] →
        (deleteCard stC5w ['a']).2.userCard = none ∧
        (deleteCard stC5w ['a']).2.settings.defaultCardId = none) ∧
      ((deleteCard stC5w ['a']).2.userCards ≠ [] →
        (∀ pc, stC5w.userCard = some pc → pc.id = some ['a'] →
          ∃ c ∈ (deleteCard stC5w ['a']).2.userCards,
            (deleteCard stC5w ['a']).2.userCard = some c) ∧
        (stC5w.settings.defaultCardId = some ['a'] →
          ∃ c ∈ (deleteCard stC5w ['a']).2.userCards,
            (deleteCard stC5w ['a']).2.settings.defaultCardId = c.id))) :=
  deleteCard_present_spec stC5w ['a']
    ⟨{ id := some ['a'], name := some ['A'] }, by decide, by decide⟩
    (by decide) (by decide)

theorem fieldMatches_iff (q : List Char) (f : Option (List Char)) :
    fieldMatches q f = true ↔
      ∃ v, f = some v ∧ v ≠ [] ∧ listIncludes q (lowerList v) = true := by
  rcases f with _ | (_ | ⟨c, cs⟩)
  · simp [fieldMatches]
  · simp [fieldMatches]
  · simp only [fieldMatches]
    constructor
    · intro h
      exact ⟨c :: cs, rfl, by simp, h⟩
    · rintro ⟨v, hv, _, hinc⟩
      rw [← Option.some.inj hv] at hinc
      exact hinc

/-- C6 (amended): a blank query returns exactly the full collection; for
a non-blank query a contact is returned iff one of `cardData.name`,
`cardData.company`, `cardData.title`, `cardData.email` or `notes` is
truthy and its lowercased text contains the lowercased **trimmed** query
as a substring. -/
theorem searchContacts_spec (st : St) (query : List Char) :
    (jsTrim query = [] → searchContacts st query = getAllContacts st) ∧
    (jsTrim query ≠ [] → ∀ contact,
      contact ∈ searchContacts st query ↔
        contact ∈ st.contacts ∧
        ∃ f ∈ [contact.cardData.name, contact.cardData.company,
               contact.cardData.title, contact.cardData.email, contact.notes],
          ∃ v, f = some v ∧ v ≠ [] ∧
            listIncludes (jsTrim (lowerList query)) (lowerList v) = true) := by
  constructor
  · intro hblank
    rw [searchContacts, if_pos (by simp [hblank])]
  · intro hblank contact
    have hq : query ≠ [] := by
      intro h
      subst h
      exact hblank rfl
    rw [searchContacts, if_neg (by simp [hq, hblank])]
    rw [List.mem_filter]
    constructor
    · rintro ⟨hmem, hmatch⟩
      refine ⟨hmem, ?_⟩
      simp only [contactMatches, Bool.or_eq_true] at hmatch
      rcases hmatch with (((h | h) | h) | h) | h
      · exact ⟨contact.cardData.name, by simp, (fieldMatches_iff _ _).mp h⟩
      · exact ⟨contact.cardData.company, by simp, (fieldMatches_iff _ _).mp h⟩
      · exact ⟨contact.cardData.title, by simp, (fieldMatches_iff _ _).mp h⟩
      · exact ⟨contact.cardData.email, by simp, (fieldMatches_iff _ _).mp h⟩
      · exact ⟨contact.notes, by simp, (fieldMatches_iff _ _).mp h⟩
    · rintro ⟨hmem, f, hf, hx⟩
      refine ⟨hmem, ?_⟩
      simp only [contactMatches, Bool.or_eq_true]
      simp only [List.mem_cons, List.not_mem_nil, or_false] at hf
      rcases hf with hf | hf | hf | hf | hf <;> rw [← hf]
      · exact Or.inl (Or.inl (Or.inl (Or.inl ((fieldMatches_iff _ _).mpr hx))))
      · exact Or.inl (Or.inl (Or.inl (Or.inr ((fieldMatches_iff _ _).mpr hx))))
      · exact Or.inl (Or.inl (Or.inr ((fieldMatches_iff _ _).mpr hx)))
      · exact Or.inl (Or.inr ((fieldMatches_iff _ _).mpr hx))
      · exact Or.inr ((fieldMatches_iff _ _).mpr hx)

/-- The contact used in the C6 counterexample and witness: name `Bo`,
company `Corp`, no other searched field. -/
def contactC6 : Contact :=
  { cardData := { name := some ['B', 'o'], company := some ['C', 'o', 'r', 'p'] } }

/-- C6 counterexample: the padded query `" corp"` (non-blank) selects the
contact whose company is `Corp`, yet `" corp"` is not a case-insensitive
substring of any of its five searched fields, so the claimed
iff (stated for the query itself, not its trimmed form) fails. -/
theorem searchContacts_counterexample :
    searchContacts { contacts := [contactC6] } [' ', 'c', 'o', 'r', 'p']
        = [contactC6] ∧
      listIncludes (lowerList [' ', 'c', 'o', 'r', 'p'])
        (lowerList ['B', 'o']) = false ∧
      listIncludes (lowerList [' ', 'c', 'o', 'r', 'p'])
        (lowerList ['C', 'o', 'r', 'p']) = false ∧
      contactC6.cardData.title = none ∧ contactC6.cardData.email = none ∧
      contactC6.notes = none := by
  decide

/-- Witness for the amended C6 theorem: a blank query returns the full
collection, and the query `or` selects the contact through its company
field. -/
theorem searchContacts_spec_witness :
    searchContacts { contacts := [contactC6] } [' '] =
        getAllContacts { contacts := [contactC6] } ∧
      contactC6 ∈ searchContacts { contacts := [contactC6] } ['o', 'r'] :=
  ⟨(searchContacts_spec { contacts := [contactC6] } [' ']).1 (by decide),
   ((searchContacts_spec { contacts := [contactC6] } ['o', 'r']).2 (by decide)
      contactC6).mpr
     ⟨by decide,
      contactC6.cardData.company, by decide,
      ['C', 'o', 'r', 'p'], by decide, by decide, by decide⟩⟩

/-- `true` when the string contains no newline character. -/
def noNL (s : List Char) : Bool := s.all fun c => c ≠ '\n'

/-- The spec's comma-quoting rule, used to state C7: a field value
containing a comma is wrapped in double quotes, any other value is taken
verbatim (falsy fields render as the empty string). -/
def wrapIfComma (v : List Char) : List Char :=
  if v.contains ',' then '"' :: (v ++ ['"']) else v

theorem escapeCsvField_eq_wrap (f : Option (List Char)) :
    escapeCsvField f = wrapIfComma (f.getD []) := by
  rcases f with _ | (_ | ⟨c, cs⟩) <;> simp [escapeCsvField, wrapIfComma]

theorem noNL_wrap {v : List Char} (h : noNL v = true) :
    noNL (wrapIfComma v) = true := by
  simp only [noNL, List.all_eq_true, decide_eq_true_eq] at h ⊢
  rw [wrapIfComma]
  split
  · intro x hx
    rcases List.mem_cons.mp hx with rfl | hx2
    · decide
    · rcases List.mem_append.mp hx2 with hxv | hxq
      · exact h x hxv
      · rw [List.mem_singleton.mp hxq]; decide
  · exact h

theorem splitOnChar_cons_ne (sep c : Char) (cs : List Char) (h : ¬c = sep) :
    splitOnChar sep (c :: cs) =
      match splitOnChar sep cs with
      | [] => [[c]]
      | l :: ls => (c :: l) :: ls := by
  rw [splitOnChar, if_neg h]

theorem splitOnChar_append_sep (sep : Char) :
    ∀ (l rest : List Char), l.all (fun c => c ≠ sep) = true →
      splitOnChar sep (l ++ sep :: rest) = l :: splitOnChar sep rest
  | [], rest, _ => by simp [splitOnChar]
  | c :: cs, rest, h => by
    simp only [List.all_cons, Bool.and_eq_true, decide_eq_true_eq] at h
    rw [List.cons_append, splitOnChar_cons_ne sep c _ h.1,
      splitOnChar_append_sep sep cs rest h.2]

/-- C7 (amended): the export is the empty string on an empty collection;
on a one-contact collection whose field values (and rendered date)
contain no newline, it produces exactly the header line and one
newline-terminated data row, in the claimed column order, with any
comma-containing field value wrapped in double quotes. -/
theorem exportCSV_spec (localeDate : Option (List Char) → List Char) (st : St) :
    (st.contacts = [] → exportContactsAsCSV localeDate st = []) ∧
    (∀ contact, st.contacts = [contact] →
      noNL (contact.cardData.name.getD []) = true →
      noNL (contact.cardData.title.getD []) = true →
      noNL (contact.cardData.company.getD []) = true →
      noNL (contact.cardData.email.getD []) = true →
      noNL (contact.cardData.phone.getD []) = true →
      noNL (contact.cardData.website.getD []) = true →
      noNL (contact.notes.getD []) = true →
      noNL (contact.meetingContext.getD []) = true →
      noNL (localeDate contact.createdAt) = true →
      splitOnChar '\n' (exportContactsAsCSV localeDate st) =
        [csvHeader,
         List.intercalate [',']
           [wrapIfComma (contact.cardData.name.getD []),
            wrapIfComma (contact.cardData.title.getD []),
            wrapIfComma (contact.cardData.company.getD []),
            wrapIfComma (contact.cardData.email.getD []),
            wrapIfComma (contact.cardData.phone.getD []),
            wrapIfComma (contact.cardData.website.getD []),
            wrapIfComma (contact.notes.getD []),
            wrapIfComma (contact.meetingContext.getD []),
            localeDate contact.createdAt],
         []]) := by
  constructor
  · intro h
    simp [exportContactsAsCSV, h]
  · intro contact hst h1 h2 h3 h4 h5 h6 h7 h8 h9
    have hrow : csvRow localeDate contact =
        List.intercalate [',']
          [wrapIfComma (contact.cardData.name.getD []),
           wrapIfComma (contact.cardData.title.getD []),
           wrapIfComma (contact.cardData.company.getD []),
           wrapIfComma (contact.cardData.email.getD []),
           wrapIfComma (contact.cardData.phone.getD []),
           wrapIfComma (contact.cardData.website.getD []),
           wrapIfComma (contact.notes.getD []),
           wrapIfComma (contact.meetingContext.getD []),
           localeDate contact.createdAt] := by
      simp [csvRow, escapeCsvField_eq_wrap]
    have hrownl : (csvRow localeDate contact).all (fun c => c ≠ '\n') = true := by
      rw [hrow]
      simp only [List.intercalate, List.intersperse_cons₂, List.intersperse_singleton,
        List.flatten_cons, List.flatten_nil, List.all_append, List.all_cons,
        List.all_nil, Bool.and_eq_true]
      have w1 := noNL_wrap h1
      have w2 := noNL_wrap h2
      have w3 := noNL_wrap h3
      have w4 := noNL_wrap h4
      have w5 := noNL_wrap h5
      have w6 := noNL_wrap h6
      have w7 := noNL_wrap h7
      have w8 := noNL_wrap h8
      simp only [noNL, List.all_eq_true, decide_eq_true_eq]
        at w1 w2 w3 w4 w5 w6 w7 w8 h9 ⊢
      exact ⟨w1, by decide, w2, by decide, w3, by decide, w4, by decide, w5,
        by decide, w6, by decide, w7, by decide, w8, by decide, h9, trivial⟩
    have hout : exportContactsAsCSV localeDate st =
        csvHeader ++ '\n' :: (csvRow localeDate contact ++ '\n' :: []) := by
      rw [exportContactsAsCSV, if_neg (by simp [hst])]
      simp [hst]
    rw [hout]
    rw [splitOnChar_append_sep '\n' csvHeader _ (by decide)]
    rw [splitOnChar_append_sep '\n' _ [] hrownl]
    rw [hrow]
    rfl

/-- The contact used in the C7 counterexample: its notes contain a
newline. -/
def contactC7 : Contact :=
  { cardData := { name := some ['A'] },
    notes := some ['a', '\n', 'b'], createdAt := some ['t'] }

/-- C7 counterexample: on a single contact whose notes contain a newline,
the export splits into four newline-separated segments, not the claimed
header plus exactly one data row. -/
theorem exportCSV_counterexample :
    ({ contacts := [contactC7] } : St).contacts.length = 1 ∧
      (splitOnChar '\n'
        (exportContactsAsCSV (fun _ => ['d']) { contacts := [contactC7] })).length
        = 4 := by
  decide

/-- The contact used in the C7 witness: its company contains a comma. -/
def contactC7w : Contact :=
  { cardData := { name := some ['A'], company := some ['X', ',', 'Y'] },
    createdAt := some ['t'] }

/-- Witness for the amended C7 theorem: the empty collection exports to
the empty string, and a one-contact collection exports to exactly header
plus one row with the comma-containing company quoted. -/
theorem exportCSV_spec_witness :
    exportContactsAsCSV (fun _ => ['d']) {} = [] ∧
      splitOnChar '\n'
          (exportContactsAsCSV (fun _ => ['d']) { contacts := [contactC7w] }) =
        [csvHeader,
         List.intercalate [',']
           [wrapIfComma (contactC7w.cardData.name.getD []),
            wrapIfComma (contactC7w.cardData.title.getD []),
            wrapIfComma (contactC7w.cardData.company.getD []),
            wrapIfComma (contactC7w.cardData.email.getD []),
            wrapIfComma (contactC7w.cardData.phone.getD []),
            wrapIfComma (contactC7w.cardData.website.getD []),
            wrapIfComma (contactC7w.notes.getD []),
            wrapIfComma (contactC7w.meetingContext.getD []),
            (fun _ => ['d']) contactC7w.createdAt],
         []] :=
  ⟨(exportCSV_spec (fun _ => ['d']) {}).1 rfl,
   (exportCSV_spec (fun _ => ['d']) { contacts := [contactC7w] }).2 contactC7w rfl
     (by decide) (by decide) (by decide) (by decide) (by decide) (by decide)
     (by decide) (by decide) (by decide)⟩

/-! ## AI service (aiService.js)

`generateFollowUp` is asynchronous and network-facing; its synchronous
decision logic (credential format check, fallback guard, template
filling, response parsing) is embedded below.  The backend call itself is
outside the model; the claims below concern only the synchronous
behaviour. -/

/-- The boolean resolved by `validateApiKey` (the function is `async`;
its body is synchronous): truthy and non-blank after trim, `sk-`-prefixed
and of length at least 20. -/
def validateApiKey (apiKey : Option (List Char)) : Bool :=
  match apiKey with
  | none => false
  | some k =>
    if k = [] || jsTrim k = [] then false
    else if !(['s', 'k', '-'].isPrefixOf k) || k.length < 20 then false
    else true

/-- The fallback guard of `generateFollowUp`:
`!apiKey || !validateApiKey(apiKey) || !templateData.name ||
(!templateData.meetingNotes && !templateData.goals)`.
`validateApiKey` is `async` and the call is not awaited, so the second
disjunct negates a Promise object — always truthy in JavaScript — and is
therefore the constant `false`. -/
def followUpUsesFallback (apiKey : Option (List Char))
    (name meetingNotes goals : List Char) : Bool :=
  !(optTruthy apiKey) || false || name.isEmpty ||
    (meetingNotes.isEmpty && goals.isEmpty)

/-- C3 (code bug): a configured credential that fails the superficial
format check (truthy, not `sk-`-prefixed) is rejected by
`validateApiKey`, yet with a non-blank contact name and non-blank meeting
notes the fallback guard still evaluates to false — the unawaited async
call makes its disjunct constant false — so `generateFollowUp` proceeds
to issue the backend request instead of returning the deterministic
templated fallback. -/
theorem generateFollowUp_unawaited_validateApiKey :
    validateApiKey (some ['b', 'a', 'd', 'k', 'e', 'y']) = false ∧
      followUpUsesFallback (some ['b', 'a', 'd', 'k', 'e', 'y'])
        ['A', 'd', 'a'] ['n', 'o', 't', 'e', 's'] [] = false := by
  decide

/-- `fillTemplate`: for each key of `data`, in order, globally replace
the literal token `{key}` by the key's value, with `undefined`/`null`
falling back to the empty string via `|| ''`.  (The key is spliced into
a regex; for the alphabetic keys the service uses, `{key}` is an invalid
quantifier and hence matched literally.) -/
def fillTemplate (template : List Char)
    (data : List (List Char × Option (List Char))) : List Char :=
  data.foldl
    (fun result kv =>
      replaceAll result ('\x7b' :: (kv.1 ++ ['\x7d'])) (kv.2.getD []))
    template

/-- C9 counterexample: with the key `name` absent from the data set, the
token `{name}` is not substituted as the empty string: it survives
literally in the output. -/
theorem fillTemplate_counterexample :
    fillTemplate ['\x7b', 'n', 'a', 'm', 'e', '\x7d'] []
        = ['\x7b', 'n', 'a', 'm', 'e', '\x7d'] ∧
      listIncludes ['\x7b', 'n', 'a', 'm', 'e', '\x7d']
        (fillTemplate ['\x7b', 'n', 'a', 'm', 'e', '\x7d'] []) = true := by
  decide

/-- A placeholder template in parsed form: brace-free literal segments
interleaved with `{key}` tokens. -/
inductive TPart where
  | lit (s : List Char)
  | tok (key : List Char)
deriving Repr, DecidableEq

/-- The text of a parsed template. -/
def renderParts : List TPart → List Char
  | [] => []
  | .lit s :: ps => s ++ renderParts ps
  | .tok k :: ps => '\x7b' :: (k ++ ['\x7d']) ++ renderParts ps

/-- No brace character occurs in the string. -/
def braceFree (s : List Char) : Bool :=
  s.all fun c => !(c = '\x7b') && !(c = '\x7d')

/-- Well-formedness of a parsed template: literal segments and token
keys are brace-free. -/
def partsWF : List TPart → Bool
  | [] => true
  | .lit s :: ps => braceFree s && partsWF ps
  | .tok k :: ps => braceFree k && partsWF ps

/-- Substituting one key: its tokens become literal segments holding the
value, everything else is unchanged. -/
def substPart (key value : List Char) : TPart → TPart
  | .lit s => .lit s
  | .tok k => if k = key then .lit value else .tok k

/-- One substitution pass over the parsed template. -/
def substParts (key value : List Char) (ps : List TPart) : List TPart :=
  ps.map (substPart key value)

/-- All substitution passes, in data order. -/
def substAll (ps : List TPart) (data : List (List Char × Option (List Char))) :
    List TPart :=
  data.foldl (fun acc kv => substParts kv.1 (kv.2.getD []) acc) ps

theorem replaceAll_brace_pattern_skip (pt rep : List Char) :
    ∀ (s rest : List Char), (s.all fun c => !(c = '\x7b')) = true →
      replaceAll (s ++ rest) ('\x7b' :: pt) rep =
        s ++ replaceAll rest ('\x7b' :: pt) rep
  | [], _, _ => by simp
  | c :: cs, rest, h => by
    simp only [List.all_cons, Bool.and_eq_true, Bool.not_eq_true',
      decide_eq_false_iff_not] at h
    rw [List.cons_append,
      replaceAll_cons_ne _ _ _ _ (by simp [List.isPrefixOf]; intro hc; exact absurd hc.symm h.1),
      replaceAll_brace_pattern_skip pt rep cs rest (by simpa using h.2)]
    rfl

theorem key_mismatch_no_match :
    ∀ (k kk rest : List Char), braceFree k = true → braceFree kk = true →
      k ≠ kk →
      (k ++ ['\x7d']).isPrefixOf (kk ++ ['\x7d'] ++ rest) = false
  | [], [], _, _, _, hne => absurd rfl hne
  | [], c :: _, _, hk, hkk, _ => by
    simp only [braceFree, List.all_cons, Bool.and_eq_true] at hkk
    simp only [List.nil_append, List.cons_append, List.isPrefixOf,
      Bool.and_eq_false_iff]
    left
    simp only [beq_eq_false_iff_ne, ne_eq]
    intro hc
    rw [← hc] at hkk
    simp at hkk
  | a :: _, [], rest, hk, _, _ => by
    simp only [braceFree, List.all_cons, Bool.and_eq_true] at hk
    simp only [List.nil_append, List.cons_append, List.isPrefixOf,
      Bool.and_eq_false_iff]
    left
    simp only [beq_eq_false_iff_ne, ne_eq]
    intro hc
    rw [hc] at hk
    simp at hk
  | a :: k', b :: kk', rest, hk, hkk, hne => by
    rw [show (a :: k') ++ ['\x7d'] = a :: (k' ++ ['\x7d']) from rfl]
    rw [show (b :: kk') ++ ['\x7d'] ++ rest
          = b :: ((kk' ++ ['\x7d']) ++ rest) from rfl]
    rw [show (a :: (k' ++ ['\x7d'])).isPrefixOf (b :: ((kk' ++ ['\x7d']) ++ rest))
          = ((a == b) && (k' ++ ['\x7d']).isPrefixOf ((kk' ++ ['\x7d']) ++ rest))
        from rfl]
    by_cases hab : a = b
    · subst hab
      have hne' : k' ≠ kk' := fun h => hne (by rw [h])
      rw [key_mismatch_no_match k' kk' rest
        (by simp only [braceFree, List.all_cons, Bool.and_eq_true] at hk; exact hk.2)
        (by simp only [braceFree, List.all_cons, Bool.and_eq_true] at hkk; exact hkk.2)
        hne']
      simp
    · simp [hab]

/-- Replacing `{k}` in a rendered well-formed template substitutes
exactly the `k`-tokens. -/
theorem replaceAll_renderParts (k v : List Char) (hk : braceFree k = true) :
    ∀ ps : List TPart, partsWF ps = true →
      replaceAll (renderParts ps) ('\x7b' :: (k ++ ['\x7d'])) v =
        renderParts (substParts k v ps)
  | [], _ => by simp [renderParts, substParts, replaceAll_nil]
  | .lit s :: ps, h => by
    simp only [partsWF, Bool.and_eq_true] at h
    rw [renderParts, replaceAll_brace_pattern_skip _ _ s _
        (by simp only [braceFree, List.all_eq_true] at h
            simp only [List.all_eq_true]
            intro x hx
            have hx2 := h.1 x hx
            simp only [Bool.and_eq_true] at hx2
            exact hx2.1),
      replaceAll_renderParts k v hk ps h.2]
    simp [substParts, renderParts, substPart]
  | .tok kk :: ps, h => by
    simp only [partsWF, Bool.and_eq_true] at h
    have hself : ∀ t u : List Char, t.isPrefixOf (t ++ u) = true := by
      intro t
      induction t with
      | nil => intro u; simp [List.isPrefixOf]
      | cons x xs ih => intro u; simp [List.isPrefixOf, ih]
    by_cases hkkk : kk = k
    · subst hkkk
      rw [renderParts]
      have hpre : ('\x7b' :: (kk ++ ['\x7d'])).isPrefixOf
          ('\x7b' :: ((kk ++ ['\x7d']) ++ renderParts ps)) = true := by
        simp only [List.isPrefixOf, beq_self_eq_true, Bool.true_and]
        exact hself (kk ++ ['\x7d']) (renderParts ps)
      rw [show '\x7b' :: (kk ++ ['\x7d']) ++ renderParts ps
            = '\x7b' :: ((kk ++ ['\x7d']) ++ renderParts ps) by simp]
      rw [replaceAll_of_isPrefixOf _ _ _ (by simp) hpre]
      have hdrop : ('\x7b' :: ((kk ++ ['\x7d']) ++ renderParts ps)).drop
          ('\x7b' :: (kk ++ ['\x7d'])).length = renderParts ps := by
        simp only [List.length_cons, List.drop_succ_cons]
        rw [List.drop_left]
      rw [hdrop, replaceAll_renderParts kk v hk ps h.2]
      simp [substParts, renderParts, substPart]
    · rw [renderParts]
      have hpre : ('\x7b' :: (k ++ ['\x7d'])).isPrefixOf
          ('\x7b' :: ((kk ++ ['\x7d']) ++ renderParts ps)) = false := by
        simp only [List.isPrefixOf, beq_self_eq_true, Bool.true_and]
        have := key_mismatch_no_match k kk (renderParts ps) hk h.1
          (fun hc => hkkk hc.symm)
        simpa using this
      rw [show '\x7b' :: (kk ++ ['\x7d']) ++ renderParts ps
            = '\x7b' :: ((kk ++ ['\x7d']) ++ renderParts ps) by simp]
      rw [replaceAll_cons_ne _ _ _ _ hpre]
      rw [show (kk ++ ['\x7d']) ++ renderParts ps
            = kk ++ ('\x7d' :: renderParts ps) by simp]
      rw [replaceAll_brace_pattern_skip _ _ kk _
          (by simp only [braceFree, List.all_eq_true] at h
              simp only [List.all_eq_true]
              intro x hx
              have hx2 := h.1 x hx
              simp only [Bool.and_eq_true] at hx2
              exact hx2.1)]
      rw [replaceAll_cons_ne _ _ _ _ (by simp [List.isPrefixOf])]
      rw [replaceAll_renderParts k v hk ps h.2]
      simp [substParts, renderParts, substPart, hkkk]

theorem partsWF_substParts (key value : List Char) (hv : braceFree value = true) :
    ∀ ps, partsWF ps = true → partsWF (substParts key value ps) = true
  | [], _ => rfl
  | .lit s :: ps, h => by
    simp only [partsWF, Bool.and_eq_true] at h
    simp only [substParts, List.map_cons, substPart, partsWF, Bool.and_eq_true]
    exact ⟨h.1, partsWF_substParts key value hv ps h.2⟩
  | .tok kk :: ps, h => by
    simp only [partsWF, Bool.and_eq_true] at h
    simp only [substParts, List.map_cons, substPart]
    by_cases hkk : kk = key
    · simp only [if_pos hkk, partsWF, Bool.and_eq_true]
      exact ⟨hv, partsWF_substParts key value hv ps h.2⟩
    · simp only [if_neg hkk, partsWF, Bool.and_eq_true]
      exact ⟨h.1, partsWF_substParts key value hv ps h.2⟩

theorem fillTemplate_renderParts :
    ∀ (data : List (List Char × Option (List Char))) (ps : List TPart),
      partsWF ps = true →
      (∀ kv ∈ data, braceFree kv.1 = true ∧ braceFree (kv.2.getD []) = true) →
      fillTemplate (renderParts ps) data = renderParts (substAll ps data)
  | [], ps, _, _ => rfl
  | kv :: rest, ps, hps, hdata => by
    have hhead := hdata kv (List.mem_cons_self kv rest)
    have step := replaceAll_renderParts kv.1 (kv.2.getD []) hhead.1 ps hps
    show fillTemplate (replaceAll (renderParts ps)
        ('\x7b' :: (kv.1 ++ ['\x7d'])) (kv.2.getD [])) rest = _
    rw [step]
    exact fillTemplate_renderParts rest (substParts kv.1 (kv.2.getD []) ps)
      (partsWF_substParts kv.1 (kv.2.getD []) hhead.2 ps hps)
      (fun kv2 h2 => hdata kv2 (List.mem_cons_of_mem kv h2))

theorem tok_mem_substParts (key value k : List Char) (ps : List TPart) :
    TPart.tok k ∈ substParts key value ps → TPart.tok k ∈ ps := by
  intro h
  rcases List.mem_map.mp h with ⟨p, hp, hps⟩
  rcases p with s | kk
  · simp [substPart] at hps
  · simp only [substPart] at hps
    by_cases hkk : kk = key
    · rw [if_pos hkk] at hps
      exact absurd hps (by simp)
    · rw [if_neg hkk] at hps
      rw [show kk = k from by injection hps] at hp
      exact hp

theorem tok_mem_substParts_of_ne (key value k : List Char) (hne : k ≠ key)
    (ps : List TPart) :
    TPart.tok k ∈ substParts key value ps ↔ TPart.tok k ∈ ps := by
  constructor
  · exact tok_mem_substParts key value k ps
  · intro h
    have : substPart key value (TPart.tok k) = TPart.tok k := by
      simp [substPart, hne]
    rw [← this]
    exact List.mem_map_of_mem _ h

theorem tok_not_mem_substParts_self (key value : List Char) (ps : List TPart) :
    TPart.tok key ∉ substParts key value ps := by
  intro h
  rcases List.mem_map.mp h with ⟨p, _, hps⟩
  rcases p with s | kk
  · simp [substPart] at hps
  · simp only [substPart] at hps
    by_cases hkk : kk = key
    · rw [if_pos hkk] at hps
      exact absurd hps (by simp)
    · rw [if_neg hkk] at hps
      exact hkk (by injection hps)

theorem substAll_tok_mem :
    ∀ (data : List (List Char × Option (List Char))) (ps : List TPart)
      (k : List Char), TPart.tok k ∈ substAll ps data → TPart.tok k ∈ ps
  | [], _, _, h => h
  | kv :: rest, ps, k, h =>
    tok_mem_substParts kv.1 (kv.2.getD []) k ps
      (substAll_tok_mem rest (substParts kv.1 (kv.2.getD []) ps) k h)

theorem substAll_absent :
    ∀ (data : List (List Char × Option (List Char))) (ps : List TPart)
      (k : List Char), (∀ kv ∈ data, kv.1 ≠ k) →
      (TPart.tok k ∈ substAll ps data ↔ TPart.tok k ∈ ps)
  | [], _, _, _ => Iff.rfl
  | kv :: rest, ps, k, habs => by
    have hne : k ≠ kv.1 := fun h => habs kv (List.mem_cons_self kv rest) h.symm
    show TPart.tok k ∈ substAll (substParts kv.1 (kv.2.getD []) ps) rest ↔ _
    rw [substAll_absent rest _ k (fun kv2 h2 => habs kv2 (List.mem_cons_of_mem kv h2))]
    exact tok_mem_substParts_of_ne kv.1 (kv.2.getD []) k hne ps

theorem substAll_present :
    ∀ (data : List (List Char × Option (List Char))) (ps : List TPart)
      (k : List Char), (∃ kv ∈ data, kv.1 = k) →
      TPart.tok k ∉ substAll ps data
  | [], _, _, hpres => by
    rcases hpres with ⟨kv, hmem, _⟩
    exact absurd hmem (List.not_mem_nil kv)
  | kv :: rest, ps, k, hpres => by
    rcases hpres with ⟨kv2, hmem, hk⟩
    rcases List.mem_cons.mp hmem with heq | hmem2
    · subst heq
      subst hk
      intro h
      exact tok_not_mem_substParts_self kv2.1 (kv2.2.getD []) ps
        (substAll_tok_mem rest _ kv2.1 h)
    · exact substAll_present rest (substParts kv.1 (kv.2.getD []) ps) k
        ⟨kv2, hmem2, hk⟩

/-- C9 (amended): placeholder substitution is literal `{key}` token
replacement in data order.  For brace-free keys and values over a
well-formed template, every token whose key is present in the data set
is replaced by the key's value (absent/empty values substitute as the
empty string), while a token whose key is absent from the data set is
left in place as a literal `{key}` token. -/
theorem fillTemplate_spec (ps : List TPart)
    (data : List (List Char × Option (List Char)))
    (hps : partsWF ps = true)
    (hdata : ∀ kv ∈ data, braceFree kv.1 = true ∧ braceFree (kv.2.getD []) = true) :
    fillTemplate (renderParts ps) data = renderParts (substAll ps data) ∧
    (∀ k, (∀ kv ∈ data, kv.1 ≠ k) →
      (TPart.tok k ∈ substAll ps data ↔ TPart.tok k ∈ ps)) ∧
    (∀ k, (∃ kv ∈ data, kv.1 = k) → TPart.tok k ∉ substAll ps data) :=
  ⟨fillTemplate_renderParts data ps hps hdata,
   fun k habs => substAll_absent data ps k habs,
   fun k hpres => substAll_present data ps k hpres⟩

/-- Witness for the amended C9 theorem: `Hi {name}!` with `name = Ada`
renders through `fillTemplate` exactly as the substituted template, and
the token fates are as stated. -/
theorem fillTemplate_spec_witness :
    fillTemplate
        (renderParts [TPart.lit ['H', 'i', ' '], TPart.tok ['n', 'a', 'm', 'e'],
          TPart.lit ['!'], TPart.tok ['g', 'o', 'n', 'e']])
        [(['n', 'a', 'm', 'e'], some ['A', 'd', 'a'])]
      = renderParts
          (substAll [TPart.lit ['H', 'i', ' '], TPart.tok ['n', 'a', 'm', 'e'],
            TPart.lit ['!'], TPart.tok ['g', 'o', 'n', 'e']]
          [(['n', 'a', 'm', 'e'], some ['A', 'd', 'a'])]) :=
  (fillTemplate_spec
      [TPart.lit ['H', 'i', ' '], TPart.tok ['n', 'a', 'm', 'e'],
        TPart.lit ['!'], TPart.tok ['g', 'o', 'n', 'e']]
      [(['n', 'a', 'm', 'e'], some ['A', 'd', 'a'])]
      (by decide) (by decide)).1

/-! ### parseAiResponse

The three section regexes
`/FORMAL:?([\s\S]*?)(?=CASUAL:|FRIENDLY:|$)/i` (and the two rotations)
are embedded by their operational semantics: find the first
case-insensitive occurrence of the marker word, consume an optional `:`,
and capture lazily up to the first case-insensitive occurrence of either
stop marker or the end of the text.
`/Subject:(.+?)(?:\n|$)/i` finds the first case-insensitive `Subject:`
followed by at least one non-newline character and captures up to the
first newline (consumed when present) or the end. -/

/-- Case-insensitive `startsWith`, one position of an `/i` regex match. -/
def ciPrefixOf : List Char → List Char → Bool
  | [], _ => true
  | _ :: _, [] => false
  | p :: ps, c :: cs => (p.toLower == c.toLower) && ciPrefixOf ps cs

/-- The suffix starting at the first case-insensitive occurrence of
`pat`, the match position of an `/i` regex search. -/
def findCISuffix (pat : List Char) : List Char → Option (List Char)
  | [] => if ciPrefixOf pat [] then some [] else none
  | s@(_ :: cs) => if ciPrefixOf pat s then some s else findCISuffix pat cs

/-- The lazy capture `([\s\S]*?)` bounded by the lookahead
`(?=stop1|stop2|$)`: everything up to the first case-insensitive
occurrence of a stop marker, or the whole text. -/
def captureUntil (stop1 stop2 : List Char) : List Char → List Char
  | [] => []
  | s@(c :: cs) =>
    if ciPrefixOf stop1 s || ciPrefixOf stop2 s then []
    else c :: captureUntil stop1 stop2 cs

/-- One section regex of `parseAiResponse`: marker word, optional colon,
lazy capture bounded by the two other markers. -/
def matchSection (marker stop1 stop2 resp : List Char) : Option (List Char) :=
  match findCISuffix marker resp with
  | none => none
  | some suffix =>
    let after := suffix.drop marker.length
    let afterColon := match after with
      | ':' :: rest => rest
      | _ => after
    some (captureUntil stop1 stop2 afterColon)

def subjectMarker : List Char := ['S', 'u', 'b', 'j', 'e', 'c', 't', ':']

/-- `(.+?)(?:\n|$)` right after a `Subject:` match: at least one
non-newline character, captured up to the first newline (which the full
match consumes) or the end.  Returns the capture and the number of
characters the match consumed after `Subject:`. -/
def subjectCapture : List Char → Option (List Char × Nat)
  | [] => none
  | '\n' :: _ => none
  | c :: cs =>
    let cap := (c :: cs).takeWhile fun x => x ≠ '\n'
    some (cap, if cap.length = cs.length + 1 then cap.length else cap.length + 1)

/-- `content.match(/Subject:(.+?)(?:\n|$)/i)`: the capture and the full
match length (`subjectMatch[0].length`).  A `Subject:` occurrence with
nothing capturable after it fails there and the search resumes at the
next position, as the regex engine does. -/
def findSubject : List Char → Option (List Char × Nat)
  | [] => none
  | s@(_ :: cs) =>
    if ciPrefixOf subjectMarker s then
      match subjectCapture (s.drop 8) with
      | some (cap, consumed) => some (cap, 8 + consumed)
      | none => findSubject cs
    else findSubject cs

structure Message where
  subject : List Char
  body : List Char
deriving Repr, DecidableEq

structure Messages where
  formal : Message
  casual : Message
  friendly : Message
deriving Repr, DecidableEq

def fallbackFormalSubject : List Char := "Following up on our meeting".toList

def fallbackFormalBody : List Char :=
  ("Dear \x7bname\x7d,\n\nI hope this email finds you well. I wanted to follow up on our recent meeting regarding \x7bmeetingNotes\x7d.\n\nAs discussed, we agreed to \x7bgoals\x7d. I\x27m looking forward to our next steps and continuing our professional relationship.\n\nPlease let me know if you have any questions or if there\x27s anything else I can provide.\n\nBest regards,\n\x7buserName\x7d").toList

def fallbackCasualSubject : List Char := "Quick follow-up from our chat".toList

def fallbackCasualBody : List Char :=
  ("Hi \x7bname\x7d,\n\nHope you\x27re doing well! Just wanted to touch base after our meeting about \x7bmeetingNotes\x7d.\n\nI\x27m excited about moving forward with \x7bgoals\x7d that we discussed. Let me know what you think about the next steps.\n\nLooking forward to connecting again soon.\n\nCheers,\n\x7buserName\x7d").toList

def fallbackFriendlySubject : List Char := "Great meeting you!".toList

def fallbackFriendlyBody : List Char :=
  ("Hey \x7bname\x7d!\n\nIt was fantastic meeting you and discussing \x7bmeetingNotes\x7d! I really enjoyed our conversation.\n\nI\x27m really excited about working together on \x7bgoals\x7d. I think we can create something amazing!\n\nLet\x27s keep in touch and chat again soon.\n\nAll the best,\n\x7buserName\x7d").toList

/-- One branch of `parseAiResponse`: a truthy captured section is
trimmed; a `Subject:` line inside it supplies the subject and the body
starts after `subjectMatch[0].length` characters **of the content**
(the source drops the match length from the start of the content, not
from the match position); without one, the subject is the hardcoded
default and the body is the whole trimmed content.  A failed or empty
capture falls back to the canned subject/body with placeholders
filled. -/
def sectionResult (matched : Option (List Char)) (defaultSubject : List Char)
    (fallbackSubject fallbackBody : List Char)
    (templateData : List (List Char × Option (List Char))) : Message :=
  match matched with
  | some (c0 :: rest) =>
    let content := jsTrim (c0 :: rest)
    match findSubject content with
    | some (cap, matchLen) =>
      { subject := jsTrim cap, body := jsTrim (content.drop matchLen) }
    | none => { subject := defaultSubject, body := content }
  | _ =>
    { subject := fillTemplate fallbackSubject templateData,
      body := fillTemplate fallbackBody templateData }

def formalWord : List Char := ['F', 'O', 'R', 'M', 'A', 'L']
def casualWord : List Char := ['C', 'A', 'S', 'U', 'A', 'L']
def friendlyWord : List Char := ['F', 'R', 'I', 'E', 'N', 'D', 'L', 'Y']
def formalStop : List Char := formalWord ++ [':']
def casualStop : List Char := casualWord ++ [':']
def friendlyStop : List Char := friendlyWord ++ [':']

/-- `parseAiResponse(aiResponse, templateData)`. -/
def parseAiResponse (aiResponse : List Char)
    (templateData : List (List Char × Option (List Char))) : Messages :=
  { formal := sectionResult
      (matchSection formalWord casualStop friendlyStop aiResponse)
      "Following up on our meeting".toList
      fallbackFormalSubject fallbackFormalBody templateData,
    casual := sectionResult
      (matchSection casualWord formalStop friendlyStop aiResponse)
      "Quick follow-up".toList
      fallbackCasualSubject fallbackCasualBody templateData,
    friendly := sectionResult
      (matchSection friendlyWord formalStop casualStop aiResponse)
      "Great meeting you!".toList
      fallbackFriendlySubject fallbackFriendlyBody templateData }

/-- No case-insensitive occurrence of `pat` starts inside the `pre`
part of `pre ++ post`. -/
def noCIOccIn (pat : List Char) : List Char → List Char → Bool
  | [], _ => true
  | pre@(_ :: rest), post => !(ciPrefixOf pat (pre ++ post)) && noCIOccIn pat rest post

theorem findCISuffix_append (pat : List Char) :
    ∀ (pre post : List Char), noCIOccIn pat pre post = true →
      findCISuffix pat (pre ++ post) = findCISuffix pat post
  | [], _, _ => rfl
  | x :: rest, post, h => by
    simp only [noCIOccIn, Bool.and_eq_true, Bool.not_eq_true'] at h
    rw [List.cons_append, findCISuffix, if_neg (by simpa using h.1)]
    exact findCISuffix_append pat rest post h.2

theorem findCISuffix_of_prefix (pat s : List Char)
    (h : ciPrefixOf pat s = true) : findCISuffix pat s = some s := by
  rcases s with _ | ⟨c, cs⟩
  · rw [findCISuffix, if_pos h]
  · rw [findCISuffix, if_pos h]

theorem findCISuffix_none (pat : List Char) (hpat : pat ≠ []) :
    ∀ s, noCIOccIn pat s [] = true → findCISuffix pat s = none
  | [], _ => by
    rcases pat with _ | ⟨p, ps⟩
    · exact absurd rfl hpat
    · rw [findCISuffix, if_neg (by simp [ciPrefixOf])]
  | c :: cs, h => by
    simp only [noCIOccIn, Bool.and_eq_true, Bool.not_eq_true',
      List.append_nil] at h
    rw [findCISuffix, if_neg (by simp [h.1]), findCISuffix_none pat hpat cs h.2]

theorem captureUntil_boundary (stop1 stop2 : List Char) :
    ∀ (pre post : List Char),
      noCIOccIn stop1 pre post = true → noCIOccIn stop2 pre post = true →
      (ciPrefixOf stop1 post || ciPrefixOf stop2 post) = true →
      captureUntil stop1 stop2 (pre ++ post) = pre
  | [], post, _, _, hstop => by
    rcases post with _ | ⟨c, cs⟩
    · rfl
    · rw [List.nil_append, captureUntil, if_pos hstop]
  | x :: rest, post, h1, h2, hstop => by
    simp only [noCIOccIn, Bool.and_eq_true, Bool.not_eq_true',
      List.cons_append] at h1 h2
    rw [List.cons_append, captureUntil, if_neg (by simp [h1.1, h2.1]),
      captureUntil_boundary stop1 stop2 rest post h1.2 h2.2 hstop]

theorem captureUntil_all (stop1 stop2 : List Char) :
    ∀ s, noCIOccIn stop1 s [] = true → noCIOccIn stop2 s [] = true →
      captureUntil stop1 stop2 s = s
  | [], _, _ => rfl
  | c :: cs, h1, h2 => by
    simp only [noCIOccIn, Bool.and_eq_true, Bool.not_eq_true',
      List.append_nil] at h1 h2
    rw [captureUntil, if_neg (by simp [h1.1, h2.1]),
      captureUntil_all stop1 stop2 cs h1.2 h2.2]

theorem findSubject_none :
    ∀ s, noCIOccIn subjectMarker s [] = true → findSubject s = none
  | [], _ => rfl
  | c :: cs, h => by
    simp only [noCIOccIn, Bool.and_eq_true, Bool.not_eq_true',
      List.append_nil] at h
    rw [findSubject, if_neg (by simp [h.1]), findSubject_none cs h.2]

theorem ciPrefixOf_append_left :
    ∀ (p q s : List Char), ciPrefixOf (p ++ q) s = true → ciPrefixOf p s = true
  | [], _, _, _ => rfl
  | p :: ps, q, [], h => by
    rw [List.cons_append] at h
    simp [ciPrefixOf] at h
  | p :: ps, q, c :: cs, h => by
    rw [List.cons_append] at h
    simp only [ciPrefixOf, Bool.and_eq_true] at h ⊢
    exact ⟨h.1, ciPrefixOf_append_left ps q cs h.2⟩

theorem ciPrefixOf_self_append :
    ∀ (p s : List Char), ciPrefixOf p (p ++ s) = true
  | [], _ => rfl
  | c :: cs, s => by
    rw [List.cons_append]
    simp only [ciPrefixOf, Bool.and_eq_true]
    exact ⟨by simp, ciPrefixOf_self_append cs s⟩

theorem noCIOccIn_mono (p1 p2 : List Char)
    (hmono : ∀ s, ciPrefixOf p2 s = true → ciPrefixOf p1 s = true) :
    ∀ pre post, noCIOccIn p1 pre post = true → noCIOccIn p2 pre post = true
  | [], _, _ => rfl
  | x :: rest, post, h => by
    simp only [noCIOccIn, Bool.and_eq_true, Bool.not_eq_true'] at h ⊢
    refine ⟨?_, noCIOccIn_mono p1 p2 hmono rest post h.2⟩
    by_cases hc : ciPrefixOf p2 ((x :: rest) ++ post) = true
    · rw [hmono _ hc] at h
      exact absurd h.1 (by simp)
    · simpa using hc

/-- `stop = word ++ [':']`: freedom from the word gives freedom from the
stop marker. -/
theorem noCIOccIn_stop_of_word (word : List Char) (pre post : List Char)
    (h : noCIOccIn word pre post = true) :
    noCIOccIn (word ++ [':']) pre post = true :=
  noCIOccIn_mono word (word ++ [':'])
    (fun s hs => ciPrefixOf_append_left word [':'] s hs) pre post h

theorem matchSection_eq (marker stop1 stop2 resp tail : List Char)
    (hfind : findCISuffix marker resp = some ((marker ++ [':']) ++ tail)) :
    matchSection marker stop1 stop2 resp = some (captureUntil stop1 stop2 tail) := by
  rw [matchSection, hfind]
  have hdrop : ((marker ++ [':']) ++ tail).drop marker.length = ':' :: tail := by
    rw [List.append_assoc, List.singleton_append, List.drop_left]
  simp only [hdrop]

theorem noCIOccIn_casualWord_formalStop (post : List Char) :
    noCIOccIn casualWord formalStop post = true := rfl

theorem noCIOccIn_friendlyWord_formalStop (post : List Char) :
    noCIOccIn friendlyWord formalStop post = true := rfl

theorem noCIOccIn_friendlyWord_casualStop (post : List Char) :
    noCIOccIn friendlyWord casualStop post = true := rfl

theorem sectionResult_clean (cap : List Char) (hne : cap ≠ [])
    (hsubj : noCIOccIn subjectMarker (jsTrim cap) [] = true)
    (d fs fb : List Char) (td : List (List Char × Option (List Char))) :
    sectionResult (some cap) d fs fb td = { subject := d, body := jsTrim cap } := by
  rcases cap with _ | ⟨c0, rest⟩
  · exact absurd rfl hne
  · simp only [sectionResult, findSubject_none _ hsubj]

theorem sectionResult_fallback (d fs fb : List Char)
    (td : List (List Char × Option (List Char))) :
    sectionResult none d fs fb td =
      { subject := fillTemplate fs td, body := fillTemplate fb td } := rfl

/-- Parsing a well-formed `FORMAL: … CASUAL: … FRIENDLY: …` response:
each section body is its trimmed text. -/
theorem parse_three_sections (f c fr : List Char)
    (td : List (List Char × Option (List Char)))
    (H1 : noCIOccIn casualWord f (casualStop ++ (c ++ (friendlyStop ++ fr))) = true)
    (H2 : noCIOccIn friendlyWord f (casualStop ++ (c ++ (friendlyStop ++ fr))) = true)
    (H3 : noCIOccIn formalWord c (friendlyStop ++ fr) = true)
    (H4 : noCIOccIn friendlyWord c (friendlyStop ++ fr) = true)
    (H5 : noCIOccIn formalWord fr [] = true)
    (H6 : noCIOccIn casualWord fr [] = true)
    (H7 : noCIOccIn subjectMarker (jsTrim f) [] = true)
    (H8 : noCIOccIn subjectMarker (jsTrim c) [] = true)
    (H9 : noCIOccIn subjectMarker (jsTrim fr) [] = true)
    (HF : jsTrim f ≠ []) (HC : jsTrim c ≠ []) (HR : jsTrim fr ≠ []) :
    parseAiResponse
        (formalStop ++ (f ++ (casualStop ++ (c ++ (friendlyStop ++ fr))))) td =
      { formal := ⟨"Following up on our meeting".toList, jsTrim f⟩,
        casual := ⟨"Quick follow-up".toList, jsTrim c⟩,
        friendly := ⟨"Great meeting you!".toList, jsTrim fr⟩ } := by
  have hfne : f ≠ [] := fun h => HF (by rw [h]; rfl)
  have hcne : c ≠ [] := fun h => HC (by rw [h]; rfl)
  have hrne : fr ≠ [] := fun h => HR (by rw [h]; rfl)
  have hfind1 : findCISuffix formalWord
      (formalStop ++ (f ++ (casualStop ++ (c ++ (friendlyStop ++ fr)))))
      = some ((formalWord ++ [':']) ++
          (f ++ (casualStop ++ (c ++ (friendlyStop ++ fr))))) :=
    findCISuffix_of_prefix _ _
      (by show ciPrefixOf formalWord ((formalWord ++ [':']) ++
            (f ++ (casualStop ++ (c ++ (friendlyStop ++ fr))))) = true
          rw [List.append_assoc]
          exact ciPrefixOf_self_append _ _)
  have hcap1 : captureUntil casualStop friendlyStop
      (f ++ (casualStop ++ (c ++ (friendlyStop ++ fr)))) = f :=
    captureUntil_boundary _ _ f _
      (noCIOccIn_stop_of_word casualWord f _ H1)
      (noCIOccIn_stop_of_word friendlyWord f _ H2)
      (by have := ciPrefixOf_self_append casualStop (c ++ (friendlyStop ++ fr))
          simp [this])
  have hM1 : matchSection formalWord casualStop friendlyStop
      (formalStop ++ (f ++ (casualStop ++ (c ++ (friendlyStop ++ fr))))) = some f := by
    rw [matchSection_eq _ _ _ _ _ hfind1, hcap1]
  have hfind2 : findCISuffix casualWord
      (formalStop ++ (f ++ (casualStop ++ (c ++ (friendlyStop ++ fr)))))
      = some ((casualWord ++ [':']) ++ (c ++ (friendlyStop ++ fr))) := by
    rw [findCISuffix_append casualWord formalStop _ (noCIOccIn_casualWord_formalStop _),
      findCISuffix_append casualWord f _ H1]
    exact findCISuffix_of_prefix _ _
      (by show ciPrefixOf casualWord ((casualWord ++ [':']) ++
            (c ++ (friendlyStop ++ fr))) = true
          rw [List.append_assoc]
          exact ciPrefixOf_self_append _ _)
  have hcap2 : captureUntil formalStop friendlyStop (c ++ (friendlyStop ++ fr)) = c :=
    captureUntil_boundary _ _ c _
      (noCIOccIn_stop_of_word formalWord c _ H3)
      (noCIOccIn_stop_of_word friendlyWord c _ H4)
      (by have := ciPrefixOf_self_append friendlyStop fr
          simp [this])
  have hM2 : matchSection casualWord formalStop friendlyStop
      (formalStop ++ (f ++ (casualStop ++ (c ++ (friendlyStop ++ fr))))) = some c := by
    rw [matchSection_eq _ _ _ _ _ hfind2, hcap2]
  have hfind3 : findCISuffix friendlyWord
      (formalStop ++ (f ++ (casualStop ++ (c ++ (friendlyStop ++ fr)))))
      = some ((friendlyWord ++ [':']) ++ fr) := by
    rw [findCISuffix_append friendlyWord formalStop _ (noCIOccIn_friendlyWord_formalStop _),
      findCISuffix_append friendlyWord f _ H2,
      findCISuffix_append friendlyWord casualStop _ (noCIOccIn_friendlyWord_casualStop _),
      findCISuffix_append friendlyWord c _ H4]
    exact findCISuffix_of_prefix _ _
      (by show ciPrefixOf friendlyWord ((friendlyWord ++ [':']) ++ fr) = true
          rw [List.append_assoc]
          exact ciPrefixOf_self_append _ _)
  have hcap3 : captureUntil formalStop casualStop fr = fr :=
    captureUntil_all _ _ fr
      (noCIOccIn_stop_of_word formalWord fr _ H5)
      (noCIOccIn_stop_of_word casualWord fr _ H6)
  have hM3 : matchSection friendlyWord formalStop casualStop
      (formalStop ++ (f ++ (casualStop ++ (c ++ (friendlyStop ++ fr))))) = some fr := by
    rw [matchSection_eq _ _ _ _ _ hfind3, hcap3]
  simp only [parseAiResponse, hM1, hM2, hM3,
    sectionResult_clean f hfne H7, sectionResult_clean c hcne H8,
    sectionResult_clean fr hrne H9]

/-- Parsing a response with `FORMAL:` and `CASUAL:` sections but no
`FRIENDLY:` marker: formal and casual come from the text, the friendly
message alone falls back to the canned subject and body. -/
theorem parse_missing_friendly (f c : List Char)
    (td : List (List Char × Option (List Char)))
    (G1 : noCIOccIn casualWord f (casualStop ++ c) = true)
    (G2 : noCIOccIn friendlyWord f (casualStop ++ c) = true)
    (G3 : noCIOccIn formalWord c [] = true)
    (G4 : noCIOccIn friendlyWord c [] = true)
    (H7 : noCIOccIn subjectMarker (jsTrim f) [] = true)
    (H8 : noCIOccIn subjectMarker (jsTrim c) [] = true)
    (HF : jsTrim f ≠ []) (HC : jsTrim c ≠ []) :
    parseAiResponse (formalStop ++ (f ++ (casualStop ++ c))) td =
      { formal := ⟨"Following up on our meeting".toList, jsTrim f⟩,
        casual := ⟨"Quick follow-up".toList, jsTrim c⟩,
        friendly := ⟨fillTemplate fallbackFriendlySubject td,
                     fillTemplate fallbackFriendlyBody td⟩ } := by
  have hfne : f ≠ [] := fun h => HF (by rw [h]; rfl)
  have hcne : c ≠ [] := fun h => HC (by rw [h]; rfl)
  have hfind1 : findCISuffix formalWord (formalStop ++ (f ++ (casualStop ++ c)))
      = some ((formalWord ++ [':']) ++ (f ++ (casualStop ++ c))) :=
    findCISuffix_of_prefix _ _
      (by show ciPrefixOf formalWord
            ((formalWord ++ [':']) ++ (f ++ (casualStop ++ c))) = true
          rw [List.append_assoc]
          exact ciPrefixOf_self_append _ _)
  have hcap1 : captureUntil casualStop friendlyStop (f ++ (casualStop ++ c)) = f :=
    captureUntil_boundary _ _ f _
      (noCIOccIn_stop_of_word casualWord f _ G1)
      (noCIOccIn_stop_of_word friendlyWord f _ G2)
      (by have := ciPrefixOf_self_append casualStop c
          simp [this])
  have hM1 : matchSection formalWord casualStop friendlyStop
      (formalStop ++ (f ++ (casualStop ++ c))) = some f := by
    rw [matchSection_eq _ _ _ _ _ hfind1, hcap1]
  have hfind2 : findCISuffix casualWord (formalStop ++ (f ++ (casualStop ++ c)))
      = some ((casualWord ++ [':']) ++ c) := by
    rw [findCISuffix_append casualWord formalStop _ (noCIOccIn_casualWord_formalStop _),
      findCISuffix_append casualWord f _ G1]
    exact findCISuffix_of_prefix _ _
      (by show ciPrefixOf casualWord ((casualWord ++ [':']) ++ c) = true
          rw [List.append_assoc]
          exact ciPrefixOf_self_append _ _)
  have hcap2 : captureUntil formalStop friendlyStop c = c :=
    captureUntil_all _ _ c
      (noCIOccIn_stop_of_word formalWord c _ G3)
      (noCIOccIn_stop_of_word friendlyWord c _ G4)
  have hM2 : matchSection casualWord formalStop friendlyStop
      (formalStop ++ (f ++ (casualStop ++ c))) = some c := by
    rw [matchSection_eq _ _ _ _ _ hfind2, hcap2]
  have hfind3 : findCISuffix friendlyWord (formalStop ++ (f ++ (casualStop ++ c)))
      = none := by
    rw [findCISuffix_append friendlyWord formalStop _ (noCIOccIn_friendlyWord_formalStop _),
      findCISuffix_append friendlyWord f _ G2,
      findCISuffix_append friendlyWord casualStop _ (noCIOccIn_friendlyWord_casualStop _)]
    exact findCISuffix_none friendlyWord (by simp [friendlyWord]) c G4
  have hM3 : matchSection friendlyWord formalStop casualStop
      (formalStop ++ (f ++ (casualStop ++ c))) = none := by
    rw [matchSection, hfind3]
  simp only [parseAiResponse, hM1, hM2, hM3,
    sectionResult_clean f hfne H7, sectionResult_clean c hcne H8,
    sectionResult_fallback]

/-- C8: parsing a well-formed generated response containing `FORMAL:`,
`CASUAL:` and `FRIENDLY:` markers extracts the three trimmed section
texts as three distinct non-empty bodies; parsing a response with
`FORMAL:` and `CASUAL:` sections but no `FRIENDLY:` marker replaces only
the friendly message with the canned fallback (placeholders filled from
the template data), while the formal and casual bodies are taken from
the response text.  Well-formedness: the section texts contain no
occurrence of the marker words or of `Subject:` (case-insensitively,
including across the joins), and their trims are non-empty and pairwise
distinct. -/
theorem parseAiResponse_spec :
    (∀ (f c fr : List Char) (td : List (List Char × Option (List Char))),
      noCIOccIn casualWord f (casualStop ++ (c ++ (friendlyStop ++ fr))) = true →
      noCIOccIn friendlyWord f (casualStop ++ (c ++ (friendlyStop ++ fr))) = true →
      noCIOccIn formalWord c (friendlyStop ++ fr) = true →
      noCIOccIn friendlyWord c (friendlyStop ++ fr) = true →
      noCIOccIn formalWord fr [] = true →
      noCIOccIn casualWord fr [] = true →
      noCIOccIn subjectMarker (jsTrim f) [] = true →
      noCIOccIn subjectMarker (jsTrim c) [] = true →
      noCIOccIn subjectMarker (jsTrim fr) [] = true →
      jsTrim f ≠ [] → jsTrim c ≠ [] → jsTrim fr ≠ [] →
      jsTrim f ≠ jsTrim c → jsTrim f ≠ jsTrim fr → jsTrim c ≠ jsTrim fr →
      (let r := parseAiResponse
        (formalStop ++ (f ++ (casualStop ++ (c ++ (friendlyStop ++ fr))))) td
       r.formal.body = jsTrim f ∧ r.casual.body = jsTrim c ∧
       r.friendly.body = jsTrim fr ∧
       r.formal.body ≠ [] ∧ r.casual.body ≠ [] ∧ r.friendly.body ≠ [] ∧
       r.formal.body ≠ r.casual.body ∧ r.formal.body ≠ r.friendly.body ∧
       r.casual.body ≠ r.friendly.body)) ∧
    (∀ (f c : List Char) (td : List (List Char × Option (List Char))),
      noCIOccIn casualWord f (casualStop ++ c) = true →
      noCIOccIn friendlyWord f (casualStop ++ c) = true →
      noCIOccIn formalWord c [] = true →
      noCIOccIn friendlyWord c [] = true →
      noCIOccIn subjectMarker (jsTrim f) [] = true →
      noCIOccIn subjectMarker (jsTrim c) [] = true →
      jsTrim f ≠ [] → jsTrim c ≠ [] →
      (let r := parseAiResponse (formalStop ++ (f ++ (casualStop ++ c))) td
       r.formal.body = jsTrim f ∧ r.casual.body = jsTrim c ∧
       r.friendly = ⟨fillTemplate fallbackFriendlySubject td,
                     fillTemplate fallbackFriendlyBody td⟩)) := by
  constructor
  · intro f c fr td H1 H2 H3 H4 H5 H6 H7 H8 H9 HF HC HR HD1 HD2 HD3
    have h := parse_three_sections f c fr td H1 H2 H3 H4 H5 H6 H7 H8 H9 HF HC HR
    rw [h]
    exact ⟨rfl, rfl, rfl, HF, HC, HR, HD1, HD2, HD3⟩
  · intro f c td G1 G2 G3 G4 H7 H8 HF HC
    have h := parse_missing_friendly f c td G1 G2 G3 G4 H7 H8 HF HC
    rw [h]
    exact ⟨rfl, rfl, rfl⟩

/-- Witness for C8 at the concrete response
`FORMAL: one CASUAL: two FRIENDLY: three` (and its two-section
variant). -/
theorem parseAiResponse_spec_witness :
    ((parseAiResponse (formalStop ++ ([' ', 'o', 'n', 'e', ' '] ++ (casualStop ++
        ([' ', 't', 'w', 'o', ' '] ++ (friendlyStop ++ [' ', 't', 'h', 'r', 'e', 'e']))))) []).formal.body
        = jsTrim [' ', 'o', 'n', 'e', ' '] ∧
      (parseAiResponse (formalStop ++ ([' ', 'o', 'n', 'e', ' '] ++ (casualStop ++
        ([' ', 't', 'w', 'o', ' '] ++ (friendlyStop ++ [' ', 't', 'h', 'r', 'e', 'e']))))) []).casual.body
        = jsTrim [' ', 't', 'w', 'o', ' '] ∧
      (parseAiResponse (formalStop ++ ([' ', 'o', 'n', 'e', ' '] ++ (casualStop ++
        ([' ', 't', 'w', 'o', ' '] ++ (friendlyStop ++ [' ', 't', 'h', 'r', 'e', 'e']))))) []).friendly.body
        = jsTrim [' ', 't', 'h', 'r', 'e', 'e'] ∧
      (parseAiResponse (formalStop ++ ([' ', 'o', 'n', 'e', ' '] ++ (casualStop ++
        [' ', 't', 'w', 'o']))) []).friendly
        = Message.mk (fillTemplate fallbackFriendlySubject [])
            (fillTemplate fallbackFriendlyBody [])) := by
  have h1 := parseAiResponse_spec.1 [' ', 'o', 'n', 'e', ' '] [' ', 't', 'w', 'o', ' ']
    [' ', 't', 'h', 'r', 'e', 'e'] [] (by decide) (by decide) (by decide) (by decide)
    (by decide) (by decide) (by decide) (by decide) (by decide) (by decide)
    (by decide) (by decide) (by decide) (by decide) (by decide)
  have h2 := parseAiResponse_spec.2 [' ', 'o', 'n', 'e', ' '] [' ', 't', 'w', 'o'] []
    (by decide) (by decide) (by decide) (by decide) (by decide) (by decide)
    (by decide) (by decide)
  exact ⟨h1.1, h1.2.1, h1.2.2.1, h2.2.2⟩

/-! ## vCard codec (qrGenerator.js)

`generateVCard` builds the CRLF-separated vCard text; `parseVCard`
splits on `\r\n`, `\r` or `\n`, skips `BEGIN:`/`END:` lines, folds
space-led continuation lines, and maps recognised properties.  Each
emitted line is modelled as its content followed by `crlf`; helper
definitions name the content of each conditional line of the source. -/

def crlf : List Char := ['\r', '\n']

/-- JavaScript `s.startsWith(p)`. -/
def startsWithStr (p : String) (s : List Char) : Bool := p.toList.isPrefixOf s

/-- Value part of the `N:` line: the name split on spaces, last token as
family name, the rest rejoined as given name (`last;first;;;`), or
`name;;;;` for a single token. -/
def nBody (nm : List Char) : List Char :=
  if (splitOnChar ' ' nm).length > 1 then
    escapeVCardValue ((splitOnChar ' ' nm).getLastD []) ++ ([';'] ++
      (escapeVCardValue (List.intercalate [' '] (splitOnChar ' ' nm).dropLast) ++
        ";;;".toList))
  else
    escapeVCardValue nm ++ ";;;;".toList

/-- The full `N:` line. -/
def nContent (nm : List Char) : List Char := "N:".toList ++ nBody nm

/-- A conditional single-property line (`ORG`, `TITLE`, `TEL;TYPE=CELL`,
`EMAIL`, `URL`, `NOTE`): emitted only for truthy values. -/
def optLine (prop : String) (f : Option (List Char)) : List Char :=
  match f with
  | some (v0 :: v) => prop.toList ++ escapeVCardValue (v0 :: v) ++ crlf
  | _ => []

/-- The linkedin URL: bare usernames are expanded, `http`-prefixed
values pass through. -/
def linkedinUrl (v : List Char) : List Char :=
  if startsWithStr "http" v then v
  else "https://www.linkedin.com/in/".toList ++ v

def linkedinSeg (f : Option (List Char)) : List Char :=
  match f with
  | some (v0 :: v) =>
    "URL;TYPE=LINKEDIN:".toList ++ escapeVCardValue (linkedinUrl (v0 :: v)) ++ crlf
  | _ => []

/-- JavaScript `s.replace('@', '')`: only the first occurrence is
removed. -/
def removeFirstChar (target : Char) : List Char → List Char
  | [] => []
  | c :: cs => if c = target then cs else c :: removeFirstChar target cs

def twitterUrl (v : List Char) : List Char :=
  if startsWithStr "http" v then v
  else "https://twitter.com/".toList ++ removeFirstChar '@' v

def twitterSeg (f : Option (List Char)) : List Char :=
  match f with
  | some (v0 :: v) =>
    "URL;TYPE=TWITTER:".toList ++ escapeVCardValue (twitterUrl (v0 :: v)) ++ crlf
  | _ => []

/-- `photoUri.split(',')[1]`; a missing second segment renders as the
string `undefined` in the template literal. -/
def photoBase64 (v : List Char) : List Char :=
  match (splitOnChar ',' v).drop 1 with
  | s :: _ => s
  | [] => "undefined".toList

/-- The `PHOTO` line: emitted only for truthy `data:image` URIs; local
`file://`/`content://` (and any other) references are skipped. -/
def photoSeg (f : Option (List Char)) : List Char :=
  match f with
  | some (v0 :: v) =>
    if startsWithStr "data:image" (v0 :: v) then
      "PHOTO;ENCODING=b;TYPE=JPEG:".toList ++ photoBase64 (v0 :: v) ++ crlf
    else []
  | _ => []

/-- `generateVCard`: `none` models the thrown error for a falsy name. -/
def generateVCard (card : Card) : Option (List Char) :=
  match card.name with
  | some (n0 :: nrest) =>
    some ("BEGIN:VCARD".toList ++ crlf ++ "VERSION:3.0".toList ++ crlf ++
      ("FN:".toList ++ escapeVCardValue (n0 :: nrest) ++ crlf) ++
      (nContent (n0 :: nrest) ++ crlf) ++
      optLine "ORG:" card.company ++
      optLine "TITLE:" card.title ++
      optLine "TEL;TYPE=CELL:" card.phone ++
      optLine "EMAIL:" card.email ++
      optLine "URL:" card.website ++
      linkedinSeg card.linkedin ++
      twitterSeg card.twitter ++
      optLine "NOTE:" card.bio ++
      photoSeg card.photoUri ++
      "END:VCARD".toList)
  | _ => none

/-- The record `parseVCard` accumulates. -/
structure ParsedCard where
  name : Option (List Char) := none
  company : Option (List Char) := none
  title : Option (List Char) := none
  phone : Option (List Char) := none
  email : Option (List Char) := none
  website : Option (List Char) := none
  linkedin : Option (List Char) := none
  twitter : Option (List Char) := none
  bio : Option (List Char) := none
deriving Repr, DecidableEq

/-- `vCardString.split(/\r\n|\r|\n/)`. -/
def splitLines : List Char → List (List Char)
  | [] => [[]]
  | c :: cs =>
    if c = '\r' then
      match cs with
      | '\n' :: rest => [] :: splitLines rest
      | [] => [[], []]
      | c2 :: rest2 => [] :: splitLines (c2 :: rest2)
    else if c = '\n' then [] :: splitLines cs
    else
      match splitLines cs with
      | [] => [[c]]
      | l :: ls => (c :: l) :: ls

/-- The folding loop: while the next line starts with a space, append it
(without the space) to the current logical line. -/
def takeFolded : List Char → List (List Char) → List Char × List (List Char)
  | cur, [] => (cur, [])
  | cur, l :: rest =>
    match l with
    | c :: tailChars =>
      if c = ' ' then takeFolded (cur ++ tailChars) rest
      else (cur, (c :: tailChars) :: rest)
    | [] => (cur, [] :: rest)

/-- One parsed property line: split at the first `:`; no colon means the
line is skipped; recognised property names update the record, in the
if-chain order of the source. -/
def applyProp (line : List Char) (card : ParsedCard) : ParsedCard :=
  let propertyName := line.takeWhile fun ch => ch ≠ ':'
  match line.dropWhile fun ch => ch ≠ ':' with
  | [] => card
  | _ :: value =>
    if propertyName = "FN".toList then
      { card with name := some (unescapeVCardValue value) }
    else if propertyName = "ORG".toList then
      { card with company := some (unescapeVCardValue value) }
    else if propertyName = "TITLE".toList then
      { card with title := some (unescapeVCardValue value) }
    else if startsWithStr "TEL" propertyName then
      { card with phone := some (unescapeVCardValue value) }
    else if startsWithStr "EMAIL" propertyName then
      { card with email := some (unescapeVCardValue value) }
    else if propertyName = "URL".toList ∨ propertyName = "URL;TYPE=WORK".toList then
      { card with website := some (unescapeVCardValue value) }
    else if propertyName = "URL;TYPE=LINKEDIN".toList then
      { card with linkedin := some (unescapeVCardValue value) }
    else if propertyName = "URL;TYPE=TWITTER".toList then
      { card with twitter := some (unescapeVCardValue value) }
    else if propertyName = "NOTE".toList then
      { card with bio := some (unescapeVCardValue value) }
    else card

/-- The parse loop; the fuel (one unit per processed or folded line,
initially the number of lines) makes the recursion structural. -/
def parseLinesFuel : Nat → List (List Char) → ParsedCard → ParsedCard
  | 0, _, card => card
  | _ + 1, [], card => card
  | fuel + 1, line :: rest, card =>
    if startsWithStr "BEGIN:" line || startsWithStr "END:" line then
      parseLinesFuel fuel rest card
    else
      let folded := takeFolded line rest
      parseLinesFuel fuel folded.2 (applyProp folded.1 card)

def parseLines (lines : List (List Char)) (card : ParsedCard) : ParsedCard :=
  parseLinesFuel lines.length lines card

/-- `parseVCard`: `none` models the thrown `Invalid vCard format`. -/
def parseVCard (vCardString : List Char) : Option ParsedCard :=
  if vCardString = [] || !(listIncludes ("BEGIN:VCARD".toList) vCardString) then
    none
  else some (parseLines (splitLines vCardString) {})

/-- C1 counterexample: a valid card whose name is the four characters
`a\nb` (backslash, letter n).  Encoding escapes the backslash; decoding
misreads the escaped pair and yields `a`, backslash, newline, `b`: the
decoded name differs from the input name. -/
theorem generateVCard_roundtrip_counterexample :
    (generateVCard { name := some ['a', '\\', 'n', 'b'] }).bind parseVCard
        = some { name := some ['a', '\\', '\n', 'b'] } ∧
      (['a', '\\', '\n', 'b'] : List Char) ≠ ['a', '\\', 'n', 'b'] := by
  decide

/-- No carriage return or newline (values must stay on one physical
line). -/
def noCRLF (s : List Char) : Bool := s.all fun c => !(c = '\r') && !(c = '\n')

/-- No carriage return. -/
def noCR (s : List Char) : Bool := s.all fun c => !(c = '\r')

/-- A field value the codec round-trips: no carriage return (the only
line-breaking character escaping does not handle) and no backslash
immediately followed by the letter `n`. -/
def cleanValue (s : List Char) : Bool := noCR s && noBackslashN s

/-- Truthy optional values are clean. -/
def optClean : Option (List Char) → Bool
  | some (v0 :: v) => cleanValue (v0 :: v)
  | _ => true

/-- The photo line, when emitted, must not break the line structure: its
unescaped base64 chunk has no CR or LF. -/
def photoClean : Option (List Char) → Bool
  | some (v0 :: v) =>
    if startsWithStr "data:image" (v0 :: v) then noCRLF (photoBase64 (v0 :: v))
    else true
  | _ => true

theorem noCRLF_concatMap_escChar :
    ∀ v : List Char, noCR v = true → noCRLF (concatMap escChar v) = true
  | [], _ => rfl
  | c :: cs, h => by
    simp only [noCR, List.all_cons, Bool.and_eq_true] at h
    have ih := noCRLF_concatMap_escChar cs (by simp only [noCR]; exact h.2)
    simp only [noCRLF, concatMap, List.all_append, Bool.and_eq_true]
    refine ⟨?_, by simpa [noCRLF] using ih⟩
    have hc : ¬c = '\r' := by simpa using h.1
    by_cases h1 : c = '\\' <;> by_cases h2 : c = ',' <;> by_cases h3 : c = ';' <;>
      by_cases h4 : c = '\n' <;> simp_all [escChar]

theorem noCRLF_escape (v : List Char) (h : noCR v = true) :
    noCRLF (escapeVCardValue v) = true := by
  rw [escape_eq_concatMap]
  exact noCRLF_concatMap_escChar v h

/-- CRLF-terminated concatenation of line contents. -/
def joinCRLF : List (List Char) → List Char
  | [] => []
  | l :: ls => l ++ ('\r' :: '\n' :: joinCRLF ls)

theorem joinCRLF_append :
    ∀ a b : List (List Char), joinCRLF (a ++ b) = joinCRLF a ++ joinCRLF b
  | [], _ => rfl
  | l :: ls, b => by
    rw [List.cons_append, joinCRLF, joinCRLF, joinCRLF_append ls b]
    simp

theorem splitLines_cons_ne (c : Char) (cs : List Char)
    (h1 : ¬c = '\r') (h2 : ¬c = '\n') :
    splitLines (c :: cs) =
      match splitLines cs with
      | [] => [[c]]
      | l :: ls => (c :: l) :: ls := by
  rw [splitLines.eq_def]
  simp only [if_neg h1, if_neg h2]

theorem splitLines_append_crlf :
    ∀ (l rest : List Char), noCRLF l = true →
      splitLines (l ++ ('\r' :: '\n' :: rest)) = l :: splitLines rest
  | [], rest, _ => rfl
  | c :: cs, rest, h => by
    simp only [noCRLF, List.all_cons, Bool.and_eq_true, Bool.not_eq_true',
      decide_eq_false_iff_not] at h
    rw [List.cons_append, splitLines_cons_ne c _ h.1.1 h.1.2,
      splitLines_append_crlf cs rest h.2]

theorem splitLines_no_crlf :
    ∀ l : List Char, noCRLF l = true → splitLines l = [l]
  | [], _ => rfl
  | c :: cs, h => by
    simp only [noCRLF, List.all_cons, Bool.and_eq_true, Bool.not_eq_true',
      decide_eq_false_iff_not] at h
    rw [splitLines_cons_ne c _ h.1.1 h.1.2,
      splitLines_no_crlf cs h.2]

theorem splitLines_joinCRLF :
    ∀ (ls : List (List Char)) (last : List Char),
      (∀ l ∈ ls, noCRLF l = true) → noCRLF last = true →
      splitLines (joinCRLF ls ++ last) = ls ++ [last]
  | [], last, _, hl => by
    rw [joinCRLF, List.nil_append, splitLines_no_crlf last hl]
    rfl
  | l :: ls, last, hall, hl => by
    rw [joinCRLF, List.cons_append, List.append_assoc]
    rw [show ('\r' :: '\n' :: joinCRLF ls) ++ last
          = '\r' :: '\n' :: (joinCRLF ls ++ last) from rfl]
    rw [splitLines_append_crlf l _ (hall l (List.mem_cons_self l ls)),
      splitLines_joinCRLF ls last (fun x hx => hall x (List.mem_cons_of_mem l hx)) hl]

/-- The first character is not a space (no vCard folding applies). -/
def noLeadSpace : List Char → Bool
  | [] => true
  | c :: _ => c ≠ ' '

def headNoLead : List (List Char) → Bool
  | [] => true
  | l :: _ => noLeadSpace l

theorem takeFolded_no_fold (cur : List Char) (rest : List (List Char))
    (h : headNoLead rest = true) : takeFolded cur rest = (cur, rest) := by
  rcases rest with _ | ⟨l, rest'⟩
  · rfl
  · rcases l with _ | ⟨c, tl⟩
    · rfl
    · have hc : ¬c = ' ' := by
        simpa [headNoLead, noLeadSpace] using h
      rw [takeFolded]
      rw [if_neg hc]

/-- Processing one line: `BEGIN:`/`END:` lines are skipped, any other is
a (possibly folded, here unfolded) property line. -/
def stepLine (line : List Char) (card : ParsedCard) : ParsedCard :=
  if startsWithStr "BEGIN:" line || startsWithStr "END:" line then card
  else applyProp line card

theorem parseLines_eq_foldl :
    ∀ (lines : List (List Char)) (card : ParsedCard),
      (∀ l ∈ lines, noLeadSpace l = true) →
      parseLines lines card =
        lines.foldl (fun acc line => stepLine line acc) card
  | [], _, _ => rfl
  | line :: rest, card, hall => by
    have hrest : ∀ l ∈ rest, noLeadSpace l = true :=
      fun l hl => hall l (List.mem_cons_of_mem _ hl)
    have hhead : headNoLead rest = true := by
      rcases rest with _ | ⟨l, _⟩
      · rfl
      · exact hrest l (List.mem_cons_self _ _)
    show parseLinesFuel (rest.length + 1) (line :: rest) card = _
    rw [parseLinesFuel]
    by_cases hskip : (startsWithStr "BEGIN:" line || startsWithStr "END:" line) = true
    · rw [if_pos hskip]
      have h0 : parseLinesFuel rest.length rest card = parseLines rest card := rfl
      rw [h0, parseLines_eq_foldl rest card hrest]
      have hstep : stepLine line card = card := by rw [stepLine, if_pos hskip]
      conv_rhs =>
        rw [show List.foldl (fun acc l => stepLine l acc) card (line :: rest)
              = List.foldl (fun acc l => stepLine l acc) (stepLine line card) rest
            from rfl]
      rw [hstep]
    · rw [if_neg hskip]
      simp only [takeFolded_no_fold line rest hhead]
      have h0 : parseLinesFuel rest.length rest (applyProp line card)
          = parseLines rest (applyProp line card) := rfl
      rw [h0, parseLines_eq_foldl rest _ hrest]
      have hstep : stepLine line card = applyProp line card := by
        rw [stepLine, if_neg hskip]
      conv_rhs =>
        rw [show List.foldl (fun acc l => stepLine l acc) card (line :: rest)
              = List.foldl (fun acc l => stepLine l acc) (stepLine line card) rest
            from rfl]
      rw [hstep]

/-- The zero- or one-line list behind `optLine` (content without the
CRLF terminator). -/
def optLines (prop : String) (f : Option (List Char)) : List (List Char) :=
  match f with
  | some (v0 :: v) => [prop.toList ++ escapeVCardValue (v0 :: v)]
  | _ => []

def linkedinLines (f : Option (List Char)) : List (List Char) :=
  match f with
  | some (v0 :: v) =>
    ["URL;TYPE=LINKEDIN:".toList ++ escapeVCardValue (linkedinUrl (v0 :: v))]
  | _ => []

def twitterLines (f : Option (List Char)) : List (List Char) :=
  match f with
  | some (v0 :: v) =>
    ["URL;TYPE=TWITTER:".toList ++ escapeVCardValue (twitterUrl (v0 :: v))]
  | _ => []

def photoLines (f : Option (List Char)) : List (List Char) :=
  match f with
  | some (v0 :: v) =>
    if startsWithStr "data:image" (v0 :: v) then
      ["PHOTO;ENCODING=b;TYPE=JPEG:".toList ++ photoBase64 (v0 :: v)]
    else []
  | _ => []

/-- The physical lines of a generated vCard after `BEGIN:VCARD`,
excluding the unterminated final `END:VCARD`. -/
def vCardRest (nm : List Char) (card : Card) : List (List Char) :=
  "VERSION:3.0".toList :: ("FN:".toList ++ escapeVCardValue nm) :: nContent nm ::
    (optLines "ORG:" card.company ++ (optLines "TITLE:" card.title ++
      (optLines "TEL;TYPE=CELL:" card.phone ++ (optLines "EMAIL:" card.email ++
        (optLines "URL:" card.website ++ (linkedinLines card.linkedin ++
          (twitterLines card.twitter ++ (optLines "NOTE:" card.bio ++
            photoLines card.photoUri))))))))

/-- All physical lines of a generated vCard except the final
`END:VCARD`. -/
def vCardLines (nm : List Char) (card : Card) : List (List Char) :=
  "BEGIN:VCARD".toList :: vCardRest nm card

theorem joinCRLF_cons (l : List Char) (ls : List (List Char)) :
    joinCRLF (l :: ls) = l ++ ('\r' :: '\n' :: joinCRLF ls) := rfl

theorem optLine_eq_joinCRLF (prop : String) (f : Option (List Char)) :
    optLine prop f = joinCRLF (optLines prop f) := by
  rcases f with _ | v
  · rfl
  · rcases v with _ | ⟨v0, v⟩
    · rfl
    · simp [optLine, optLines, joinCRLF, crlf]

theorem linkedinSeg_eq_joinCRLF (f : Option (List Char)) :
    linkedinSeg f = joinCRLF (linkedinLines f) := by
  rcases f with _ | v
  · rfl
  · rcases v with _ | ⟨v0, v⟩
    · rfl
    · simp [linkedinSeg, linkedinLines, joinCRLF, crlf]

theorem twitterSeg_eq_joinCRLF (f : Option (List Char)) :
    twitterSeg f = joinCRLF (twitterLines f) := by
  rcases f with _ | v
  · rfl
  · rcases v with _ | ⟨v0, v⟩
    · rfl
    · simp [twitterSeg, twitterLines, joinCRLF, crlf]

theorem photoSeg_eq_joinCRLF (f : Option (List Char)) :
    photoSeg f = joinCRLF (photoLines f) := by
  rcases f with _ | v
  · rfl
  · rcases v with _ | ⟨v0, v⟩
    · rfl
    · by_cases hd : startsWithStr "data:image" (v0 :: v) = true
      · simp [photoSeg, photoLines, hd, joinCRLF, crlf]
      · simp [photoSeg, photoLines, hd, joinCRLF]

/-- A generated vCard is the CRLF-joined line list followed by the
unterminated `END:VCARD`. -/
theorem generateVCard_eq (card : Card) (n0 : Char) (nrest : List Char)
    (h : card.name = some (n0 :: nrest)) :
    generateVCard card
      = some (joinCRLF (vCardLines (n0 :: nrest) card) ++ "END:VCARD".toList) := by
  rw [generateVCard.eq_def, h]
  simp only [vCardLines, vCardRest, joinCRLF_cons, joinCRLF_append,
    ← optLine_eq_joinCRLF, ← linkedinSeg_eq_joinCRLF, ← twitterSeg_eq_joinCRLF,
    ← photoSeg_eq_joinCRLF, crlf, Option.some.injEq,
    List.append_assoc, List.cons_append, List.nil_append]

theorem noCRLF_append (a b : List Char) :
    noCRLF (a ++ b) = (noCRLF a && noCRLF b) := by
  simp [noCRLF]

theorem noCR_append (a b : List Char) :
    noCR (a ++ b) = (noCR a && noCR b) := by
  simp [noCR]

/-- Every part produced by `splitOnChar` draws its characters from the
input string. -/
theorem all_mem_splitOnChar (P : Char → Bool) (sep : Char) :
    ∀ (s : List Char), s.all P = true →
      ∀ part ∈ splitOnChar sep s, part.all P = true
  | [], _, part, hp => by
    simp only [splitOnChar, List.mem_singleton] at hp
    simp [hp]
  | c :: cs, h, part, hp => by
    simp only [List.all_cons, Bool.and_eq_true] at h
    by_cases hc : c = sep
    · rw [splitOnChar, if_pos hc] at hp
      rcases List.mem_cons.mp hp with h1 | h2
      · simp [h1]
      · exact all_mem_splitOnChar P sep cs h.2 part h2
    · rw [splitOnChar_cons_ne sep c cs hc] at hp
      rcases hsplit : splitOnChar sep cs with _ | ⟨l, ls⟩
      · rw [hsplit] at hp
        simp only [List.mem_singleton] at hp
        simp [hp, h.1]
      · rw [hsplit] at hp
        rcases List.mem_cons.mp hp with h1 | h2
        · subst h1
          have hl : l.all P = true :=
            all_mem_splitOnChar P sep cs h.2 l
              (by rw [hsplit]; exact List.mem_cons_self _ _)
          simp [h.1, hl]
        · exact all_mem_splitOnChar P sep cs h.2 part
            (by rw [hsplit]; exact List.mem_cons_of_mem _ h2)

/-- A property of every member and of the default passes to
`getLastD`. -/
theorem getLastD_prop {α : Type} (P : α → Prop) :
    ∀ (l : List α) (d : α), (∀ x ∈ l, P x) → P d → P (l.getLastD d)
  | [], _, _, hd => hd
  | a :: as, d, h, _ => by
    rw [List.getLastD_cons]
    exact getLastD_prop P as a
      (fun x hx => h x (List.mem_cons_of_mem _ hx)) (h a (List.mem_cons_self _ _))

/-- `List.all` passes to `intercalate` when the separator and every
member satisfy it. -/
theorem all_intercalate (P : Char → Bool) (sep : List Char)
    (hsep : sep.all P = true) :
    ∀ xs : List (List Char), (∀ x ∈ xs, x.all P = true) →
      (List.intercalate sep xs).all P = true
  | [], _ => by simp [List.intercalate, List.intersperse]
  | [x], h => by
    rw [show List.intercalate sep [x] = x by
      simp [List.intercalate, List.intersperse]]
    exact h x (List.mem_cons_self _ _)
  | x :: y :: zs, h => by
    rw [show List.intercalate sep (x :: y :: zs)
          = x ++ sep ++ List.intercalate sep (y :: zs) by
      simp [List.intercalate, List.intersperse]]
    simp only [List.all_append, Bool.and_eq_true]
    refine ⟨⟨h x (List.mem_cons_self _ _), hsep⟩, ?_⟩
    exact all_intercalate P sep hsep (y :: zs)
      (fun z hz => h z (List.mem_cons_of_mem _ hz))

theorem removeFirstChar_all (P : Char → Bool) (t : Char) :
    ∀ s : List Char, s.all P = true → (removeFirstChar t s).all P = true
  | [], h => h
  | c :: cs, h => by
    simp only [List.all_cons, Bool.and_eq_true] at h
    rw [removeFirstChar]
    by_cases hc : c = t
    · rw [if_pos hc]; exact h.2
    · rw [if_neg hc]
      simp only [List.all_cons, Bool.and_eq_true]
      exact ⟨h.1, removeFirstChar_all P t cs h.2⟩

theorem noCR_linkedinUrl (v : List Char) (h : noCR v = true) :
    noCR (linkedinUrl v) = true := by
  rw [linkedinUrl]
  by_cases hh : startsWithStr "http" v = true
  · rw [if_pos hh]; exact h
  · rw [if_neg hh]
    rw [noCR_append]
    simp only [Bool.and_eq_true]
    exact ⟨by decide, h⟩

theorem noCR_twitterUrl (v : List Char) (h : noCR v = true) :
    noCR (twitterUrl v) = true := by
  rw [twitterUrl]
  by_cases hh : startsWithStr "http" v = true
  · rw [if_pos hh]; exact h
  · rw [if_neg hh]
    rw [noCR_append]
    simp only [Bool.and_eq_true]
    exact ⟨by decide, removeFirstChar_all _ '@' v h⟩

theorem noCRLF_nBody (nm : List Char) (h : noCR nm = true) :
    noCRLF (nBody nm) = true := by
  rw [nBody]
  by_cases hl : (splitOnChar ' ' nm).length > 1
  · rw [if_pos hl]
    have hlast : noCR ((splitOnChar ' ' nm).getLastD []) = true :=
      getLastD_prop (fun p => noCR p = true) (splitOnChar ' ' nm) []
        (fun x hx => all_mem_splitOnChar _ ' ' nm h x hx) rfl
    have hint : noCR (List.intercalate [' '] (splitOnChar ' ' nm).dropLast) = true :=
      all_intercalate _ [' '] (by decide) _
        (fun x hx => all_mem_splitOnChar _ ' ' nm h x (List.dropLast_subset _ hx))
    simp only [noCRLF_append, Bool.and_eq_true]
    exact ⟨noCRLF_escape _ hlast, by decide, noCRLF_escape _ hint, by decide⟩
  · rw [if_neg hl]
    simp only [noCRLF_append, Bool.and_eq_true]
    exact ⟨noCRLF_escape _ h, by decide⟩

theorem noCRLF_nContent (nm : List Char) (h : noCR nm = true) :
    noCRLF (nContent nm) = true := by
  rw [nContent]
  simp only [noCRLF_append, Bool.and_eq_true]
  exact ⟨by decide, noCRLF_nBody nm h⟩

theorem optLines_noCRLF (prop : String) (f : Option (List Char))
    (hp : noCRLF prop.toList = true) (h : optClean f = true) :
    ∀ l ∈ optLines prop f, noCRLF l = true := by
  rcases f with _ | v
  · intro l hl; simp [optLines] at hl
  · rcases v with _ | ⟨v0, v⟩
    · intro l hl; simp [optLines] at hl
    · intro l hl
      simp only [optLines, List.mem_singleton] at hl
      subst hl
      have hcv : noCR (v0 :: v) = true := by
        simp only [optClean, cleanValue, Bool.and_eq_true] at h
        exact h.1
      simp only [noCRLF_append, Bool.and_eq_true]
      exact ⟨hp, noCRLF_escape _ hcv⟩

theorem linkedinLines_noCRLF (f : Option (List Char)) (h : optClean f = true) :
    ∀ l ∈ linkedinLines f, noCRLF l = true := by
  rcases f with _ | v
  · intro l hl; simp [linkedinLines] at hl
  · rcases v with _ | ⟨v0, v⟩
    · intro l hl; simp [linkedinLines] at hl
    · intro l hl
      simp only [linkedinLines, List.mem_singleton] at hl
      subst hl
      have hcv : noCR (v0 :: v) = true := by
        simp only [optClean, cleanValue, Bool.and_eq_true] at h
        exact h.1
      simp only [noCRLF_append, Bool.and_eq_true]
      exact ⟨by decide, noCRLF_escape _ (noCR_linkedinUrl _ hcv)⟩

theorem twitterLines_noCRLF (f : Option (List Char)) (h : optClean f = true) :
    ∀ l ∈ twitterLines f, noCRLF l = true := by
  rcases f with _ | v
  · intro l hl; simp [twitterLines] at hl
  · rcases v with _ | ⟨v0, v⟩
    · intro l hl; simp [twitterLines] at hl
    · intro l hl
      simp only [twitterLines, List.mem_singleton] at hl
      subst hl
      have hcv : noCR (v0 :: v) = true := by
        simp only [optClean, cleanValue, Bool.and_eq_true] at h
        exact h.1
      simp only [noCRLF_append, Bool.and_eq_true]
      exact ⟨by decide, noCRLF_escape _ (noCR_twitterUrl _ hcv)⟩

theorem photoLines_noCRLF (f : Option (List Char)) (h : photoClean f = true) :
    ∀ l ∈ photoLines f, noCRLF l = true := by
  rcases f with _ | v
  · intro l hl; simp [photoLines] at hl
  · rcases v with _ | ⟨v0, v⟩
    · intro l hl; simp [photoLines] at hl
    · intro l hl
      simp only [photoLines] at hl
      by_cases hd : startsWithStr "data:image" (v0 :: v) = true
      · rw [if_pos hd] at hl
        simp only [List.mem_singleton] at hl
        subst hl
        have hb : noCRLF (photoBase64 (v0 :: v)) = true := by
          simp only [photoClean] at h
          rw [if_pos hd] at h
          exact h
        simp only [noCRLF_append, Bool.and_eq_true]
        exact ⟨by decide, hb⟩
      · rw [if_neg hd] at hl
        simp at hl

/-- Every line of a generated vCard body is free of CR and LF when the
card's fields are clean. -/
theorem vCardLines_noCRLF (card : Card) (nm : List Char)
    (hn : noCR nm = true)
    (hco : optClean card.company = true) (hti : optClean card.title = true)
    (hph : optClean card.phone = true) (hem : optClean card.email = true)
    (hwe : optClean card.website = true) (hli : optClean card.linkedin = true)
    (htw : optClean card.twitter = true) (hbi : optClean card.bio = true)
    (hpho : photoClean card.photoUri = true) :
    ∀ l ∈ vCardLines nm card, noCRLF l = true := by
  intro l hl
  simp only [vCardLines, vCardRest, List.mem_cons, List.mem_append] at hl
  rcases hl with rfl | rfl | rfl | rfl | h9 | h9 | h9 | h9 | h9 | h9 | h9 | h9 | h9
  · decide
  · decide
  · simp only [noCRLF_append, Bool.and_eq_true]
    exact ⟨by decide, noCRLF_escape _ hn⟩
  · exact noCRLF_nContent nm hn
  · exact optLines_noCRLF _ _ (by decide) hco l h9
  · exact optLines_noCRLF _ _ (by decide) hti l h9
  · exact optLines_noCRLF _ _ (by decide) hph l h9
  · exact optLines_noCRLF _ _ (by decide) hem l h9
  · exact optLines_noCRLF _ _ (by decide) hwe l h9
  · exact linkedinLines_noCRLF _ hli l h9
  · exact twitterLines_noCRLF _ htw l h9
  · exact optLines_noCRLF _ _ (by decide) hbi l h9
  · exact photoLines_noCRLF _ hpho l h9

theorem noLeadSpace_append (p x : List Char) (hp : noLeadSpace p = true)
    (hne : p ≠ []) : noLeadSpace (p ++ x) = true := by
  rcases p with _ | ⟨c, cs⟩
  · exact absurd rfl hne
  · exact hp

theorem optLines_noLeadSpace (prop : String) (f : Option (List Char))
    (h1 : noLeadSpace prop.toList = true) (h2 : prop.toList ≠ []) :
    ∀ l ∈ optLines prop f, noLeadSpace l = true := by
  rcases f with _ | v
  · intro l hl; simp [optLines] at hl
  · rcases v with _ | ⟨v0, v⟩
    · intro l hl; simp [optLines] at hl
    · intro l hl
      simp only [optLines, List.mem_singleton] at hl
      subst hl
      exact noLeadSpace_append _ _ h1 h2

theorem linkedinLines_noLeadSpace (f : Option (List Char)) :
    ∀ l ∈ linkedinLines f, noLeadSpace l = true := by
  rcases f with _ | v
  · intro l hl; simp [linkedinLines] at hl
  · rcases v with _ | ⟨v0, v⟩
    · intro l hl; simp [linkedinLines] at hl
    · intro l hl
      simp only [linkedinLines, List.mem_singleton] at hl
      subst hl
      exact noLeadSpace_append _ _ (by decide) (by decide)

theorem twitterLines_noLeadSpace (f : Option (List Char)) :
    ∀ l ∈ twitterLines f, noLeadSpace l = true := by
  rcases f with _ | v
  · intro l hl; simp [twitterLines] at hl
  · rcases v with _ | ⟨v0, v⟩
    · intro l hl; simp [twitterLines] at hl
    · intro l hl
      simp only [twitterLines, List.mem_singleton] at hl
      subst hl
      exact noLeadSpace_append _ _ (by decide) (by decide)

theorem photoLines_noLeadSpace (f : Option (List Char)) :
    ∀ l ∈ photoLines f, noLeadSpace l = true := by
  rcases f with _ | v
  · intro l hl; simp [photoLines] at hl
  · rcases v with _ | ⟨v0, v⟩
    · intro l hl; simp [photoLines] at hl
    · intro l hl
      simp only [photoLines] at hl
      by_cases hd : startsWithStr "data:image" (v0 :: v) = true
      · rw [if_pos hd] at hl
        simp only [List.mem_singleton] at hl
        subst hl
        exact noLeadSpace_append _ _ (by decide) (by decide)
      · rw [if_neg hd] at hl
        simp at hl

/-- No line of a generated vCard body starts with a space: vCard folding
never applies on parse. -/
theorem vCardLines_noLeadSpace (card : Card) (nm : List Char) :
    ∀ l ∈ vCardLines nm card, noLeadSpace l = true := by
  intro l hl
  simp only [vCardLines, vCardRest, List.mem_cons, List.mem_append] at hl
  rcases hl with rfl | rfl | rfl | rfl | h9 | h9 | h9 | h9 | h9 | h9 | h9 | h9 | h9
  · decide
  · decide
  · exact noLeadSpace_append _ _ (by decide) (by decide)
  · rw [nContent]
    exact noLeadSpace_append _ _ (by decide) (by decide)
  · exact optLines_noLeadSpace "ORG:" _ (by decide) (by decide) l h9
  · exact optLines_noLeadSpace "TITLE:" _ (by decide) (by decide) l h9
  · exact optLines_noLeadSpace "TEL;TYPE=CELL:" _ (by decide) (by decide) l h9
  · exact optLines_noLeadSpace "EMAIL:" _ (by decide) (by decide) l h9
  · exact optLines_noLeadSpace "URL:" _ (by decide) (by decide) l h9
  · exact linkedinLines_noLeadSpace _ l h9
  · exact twitterLines_noLeadSpace _ l h9
  · exact optLines_noLeadSpace "NOTE:" _ (by decide) (by decide) l h9
  · exact photoLines_noLeadSpace _ l h9

theorem isPrefixOf_append_self : ∀ p r : List Char, p.isPrefixOf (p ++ r) = true
  | [], r => by cases r <;> rfl
  | c :: cs, r => by
    show (c == c && cs.isPrefixOf (cs ++ r)) = true
    simp [isPrefixOf_append_self cs r]

theorem listIncludes_append_self (p r : List Char) :
    listIncludes p (p ++ r) = true := by
  rcases p with _ | ⟨c, cs⟩
  · rcases r with _ | ⟨d, ds⟩
    · rfl
    · simp [listIncludes, List.isPrefixOf]
  · show (List.isPrefixOf (c :: cs) (c :: (cs ++ r)) || _) = true
    rw [show (c :: (cs ++ r)) = (c :: cs) ++ r from rfl, isPrefixOf_append_self]
    simp

/-- The guard of `parseVCard` passes on any text that starts with
`BEGIN:VCARD`. -/
theorem parseVCard_prefix_begin (w : List Char) :
    parseVCard ("BEGIN:VCARD".toList ++ w)
      = some (parseLines (splitLines ("BEGIN:VCARD".toList ++ w)) {}) := by
  rw [parseVCard]
  have h1 : ¬("BEGIN:VCARD".toList ++ w = []) := by
    rw [show "BEGIN:VCARD".toList ++ w
          = 'B' :: ("EGIN:VCARD".toList ++ w) from rfl]
    simp
  have hc : (decide ("BEGIN:VCARD".toList ++ w = [])
        || !listIncludes ("BEGIN:VCARD".toList) ("BEGIN:VCARD".toList ++ w))
      = false := by
    rw [listIncludes_append_self, decide_eq_false h1]
    rfl
  rw [if_neg (by rw [hc]; exact Bool.false_ne_true)]

theorem stepLine_begin (card : ParsedCard) :
    stepLine ("BEGIN:VCARD".toList) card = card := rfl

theorem stepLine_end (card : ParsedCard) :
    stepLine ("END:VCARD".toList) card = card := rfl

theorem stepLine_version (card : ParsedCard) :
    stepLine ("VERSION:3.0".toList) card = card := rfl

theorem stepLine_fn (v : List Char) (card : ParsedCard) :
    stepLine ("FN:".toList ++ v) card
      = { card with name := some (unescapeVCardValue v) } := rfl

theorem stepLine_n (v : List Char) (card : ParsedCard) :
    stepLine ("N:".toList ++ v) card = card := rfl

theorem stepLine_org (v : List Char) (card : ParsedCard) :
    stepLine ("ORG:".toList ++ v) card
      = { card with company := some (unescapeVCardValue v) } := rfl

theorem stepLine_title (v : List Char) (card : ParsedCard) :
    stepLine ("TITLE:".toList ++ v) card
      = { card with title := some (unescapeVCardValue v) } := rfl

theorem stepLine_tel (v : List Char) (card : ParsedCard) :
    stepLine ("TEL;TYPE=CELL:".toList ++ v) card
      = { card with phone := some (unescapeVCardValue v) } := rfl

theorem stepLine_email (v : List Char) (card : ParsedCard) :
    stepLine ("EMAIL:".toList ++ v) card
      = { card with email := some (unescapeVCardValue v) } := rfl

theorem stepLine_url (v : List Char) (card : ParsedCard) :
    stepLine ("URL:".toList ++ v) card
      = { card with website := some (unescapeVCardValue v) } := rfl

theorem stepLine_linkedin (v : List Char) (card : ParsedCard) :
    stepLine ("URL;TYPE=LINKEDIN:".toList ++ v) card
      = { card with linkedin := some (unescapeVCardValue v) } := rfl

theorem stepLine_twitter (v : List Char) (card : ParsedCard) :
    stepLine ("URL;TYPE=TWITTER:".toList ++ v) card
      = { card with twitter := some (unescapeVCardValue v) } := rfl

theorem stepLine_note (v : List Char) (card : ParsedCard) :
    stepLine ("NOTE:".toList ++ v) card
      = { card with bio := some (unescapeVCardValue v) } := rfl

theorem stepLine_photo (v : List Char) (card : ParsedCard) :
    stepLine ("PHOTO;ENCODING=b;TYPE=JPEG:".toList ++ v) card = card := rfl

theorem foldl_optLines_org (f : Option (List Char)) (acc : ParsedCard) :
    List.foldl (fun a l => stepLine l a) acc (optLines "ORG:" f)
      = { acc with company :=
            match f with
            | some (v0 :: v) =>
              some (unescapeVCardValue (escapeVCardValue (v0 :: v)))
            | _ => acc.company } := by
  rcases f with _ | v
  · rfl
  · rcases v with _ | ⟨v0, v⟩
    · rfl
    · show stepLine ("ORG:".toList ++ escapeVCardValue (v0 :: v)) acc = _
      rw [stepLine_org]

theorem foldl_optLines_title (f : Option (List Char)) (acc : ParsedCard) :
    List.foldl (fun a l => stepLine l a) acc (optLines "TITLE:" f)
      = { acc with title :=
            match f with
            | some (v0 :: v) =>
              some (unescapeVCardValue (escapeVCardValue (v0 :: v)))
            | _ => acc.title } := by
  rcases f with _ | v
  · rfl
  · rcases v with _ | ⟨v0, v⟩
    · rfl
    · show stepLine ("TITLE:".toList ++ escapeVCardValue (v0 :: v)) acc = _
      rw [stepLine_title]

theorem foldl_optLines_tel (f : Option (List Char)) (acc : ParsedCard) :
    List.foldl (fun a l => stepLine l a) acc (optLines "TEL;TYPE=CELL:" f)
      = { acc with phone :=
            match f with
            | some (v0 :: v) =>
              some (unescapeVCardValue (escapeVCardValue (v0 :: v)))
            | _ => acc.phone } := by
  rcases f with _ | v
  · rfl
  · rcases v with _ | ⟨v0, v⟩
    · rfl
    · show stepLine ("TEL;TYPE=CELL:".toList ++ escapeVCardValue (v0 :: v)) acc = _
      rw [stepLine_tel]

theorem foldl_optLines_email (f : Option (List Char)) (acc : ParsedCard) :
    List.foldl (fun a l => stepLine l a) acc (optLines "EMAIL:" f)
      = { acc with email :=
            match f with
            | some (v0 :: v) =>
              some (unescapeVCardValue (escapeVCardValue (v0 :: v)))
            | _ => acc.email } := by
  rcases f with _ | v
  · rfl
  · rcases v with _ | ⟨v0, v⟩
    · rfl
    · show stepLine ("EMAIL:".toList ++ escapeVCardValue (v0 :: v)) acc = _
      rw [stepLine_email]

theorem foldl_optLines_url (f : Option (List Char)) (acc : ParsedCard) :
    List.foldl (fun a l => stepLine l a) acc (optLines "URL:" f)
      = { acc with website :=
            match f with
            | some (v0 :: v) =>
              some (unescapeVCardValue (escapeVCardValue (v0 :: v)))
            | _ => acc.website } := by
  rcases f with _ | v
  · rfl
  · rcases v with _ | ⟨v0, v⟩
    · rfl
    · show stepLine ("URL:".toList ++ escapeVCardValue (v0 :: v)) acc = _
      rw [stepLine_url]

theorem foldl_linkedinLines (f : Option (List Char)) (acc : ParsedCard) :
    List.foldl (fun a l => stepLine l a) acc (linkedinLines f)
      = { acc with linkedin :=
            match f with
            | some (v0 :: v) =>
              some (unescapeVCardValue (escapeVCardValue (linkedinUrl (v0 :: v))))
            | _ => acc.linkedin } := by
  rcases f with _ | v
  · rfl
  · rcases v with _ | ⟨v0, v⟩
    · rfl
    · show stepLine
          ("URL;TYPE=LINKEDIN:".toList ++ escapeVCardValue (linkedinUrl (v0 :: v)))
          acc = _
      rw [stepLine_linkedin]

theorem foldl_twitterLines (f : Option (List Char)) (acc : ParsedCard) :
    List.foldl (fun a l => stepLine l a) acc (twitterLines f)
      = { acc with twitter :=
            match f with
            | some (v0 :: v) =>
              some (unescapeVCardValue (escapeVCardValue (twitterUrl (v0 :: v))))
            | _ => acc.twitter } := by
  rcases f with _ | v
  · rfl
  · rcases v with _ | ⟨v0, v⟩
    · rfl
    · show stepLine
          ("URL;TYPE=TWITTER:".toList ++ escapeVCardValue (twitterUrl (v0 :: v)))
          acc = _
      rw [stepLine_twitter]

theorem foldl_optLines_note (f : Option (List Char)) (acc : ParsedCard) :
    List.foldl (fun a l => stepLine l a) acc (optLines "NOTE:" f)
      = { acc with bio :=
            match f with
            | some (v0 :: v) =>
              some (unescapeVCardValue (escapeVCardValue (v0 :: v)))
            | _ => acc.bio } := by
  rcases f with _ | v
  · rfl
  · rcases v with _ | ⟨v0, v⟩
    · rfl
    · show stepLine ("NOTE:".toList ++ escapeVCardValue (v0 :: v)) acc = _
      rw [stepLine_note]

/-- The `PHOTO` property is written but never read back: its line leaves
the parse state unchanged. -/
theorem foldl_photoLines (f : Option (List Char)) (acc : ParsedCard) :
    List.foldl (fun a l => stepLine l a) acc (photoLines f) = acc := by
  rcases f with _ | v
  · rfl
  · rcases v with _ | ⟨v0, v⟩
    · rfl
    · show List.foldl (fun a l => stepLine l a) acc
          (if startsWithStr "data:image" (v0 :: v) then
            ["PHOTO;ENCODING=b;TYPE=JPEG:".toList ++ photoBase64 (v0 :: v)]
          else []) = acc
      by_cases hd : startsWithStr "data:image" (v0 :: v) = true
      · rw [if_pos hd]
        show stepLine
            ("PHOTO;ENCODING=b;TYPE=JPEG:".toList ++ photoBase64 (v0 :: v)) acc = acc
        rw [stepLine_photo]
      · rw [if_neg hd]
        rfl

/-- The four header lines leave only the `FN` value in the parse
state. -/
theorem foldl_head (nm : List Char) :
    List.foldl (fun a l => stepLine l a) ({} : ParsedCard)
        ["BEGIN:VCARD".toList, "VERSION:3.0".toList,
         "FN:".toList ++ escapeVCardValue nm, nContent nm]
      = { name := some (unescapeVCardValue (escapeVCardValue nm)) } := by
  show stepLine (nContent nm)
      (stepLine ("FN:".toList ++ escapeVCardValue nm)
        (stepLine ("VERSION:3.0".toList)
          (stepLine ("BEGIN:VCARD".toList) {}))) = _
  rw [stepLine_begin, stepLine_version, stepLine_fn, nContent]
  exact stepLine_n _ _

/-- `parseVCard` on a generated vCard: the guard passes, the text splits
back into its lines, and the parse is the line-by-line fold. -/
theorem parseVCard_generated (card : Card) (nm : List Char)
    (hlines : ∀ l ∈ vCardLines nm card, noCRLF l = true)
    (hlead : ∀ l ∈ vCardLines nm card, noLeadSpace l = true) :
    parseVCard (joinCRLF (vCardLines nm card) ++ "END:VCARD".toList)
      = some (List.foldl (fun a l => stepLine l a) ({} : ParsedCard)
          (vCardLines nm card ++ ["END:VCARD".toList])) := by
  have hsplit : joinCRLF (vCardLines nm card) ++ "END:VCARD".toList
      = "BEGIN:VCARD".toList ++
          (('\r' :: '\n' :: joinCRLF (vCardRest nm card)) ++ "END:VCARD".toList) := by
    rw [vCardLines, joinCRLF_cons, List.append_assoc]
  rw [hsplit, parseVCard_prefix_begin, ← hsplit]
  rw [splitLines_joinCRLF (vCardLines nm card) _ hlines (by decide)]
  rw [parseLines_eq_foldl _ _ ?_]
  intro l hl
  rcases List.mem_append.mp hl with h1 | h2
  · exact hlead l h1
  · have := List.mem_singleton.mp h2
    subst this
    decide

theorem foldl_single_end (acc : ParsedCard) :
    List.foldl (fun a l => stepLine l a) acc [("END:VCARD".toList : List Char)]
      = acc := by
  show stepLine ("END:VCARD".toList) acc = acc
  exact stepLine_end acc

/-- Projection rules: each property segment of the generated line list
sets exactly its own field of the parse state and preserves every
other. -/
theorem foldl_org_name (g : Option (List Char)) (acc : ParsedCard) :
    (List.foldl (fun a l => stepLine l a) acc (optLines "ORG:" g)).name = acc.name := by
  rcases g with _ | ⟨_ | ⟨v0, v⟩⟩ <;> rfl

theorem foldl_org_company (g : Option (List Char)) (acc : ParsedCard) :
    (List.foldl (fun a l => stepLine l a) acc (optLines "ORG:" g)).company
      = match g with
        | some (v0 :: v) =>
          some (unescapeVCardValue (escapeVCardValue (v0 :: v)))
        | _ => acc.company := by
  rcases g with _ | ⟨_ | ⟨v0, v⟩⟩ <;> rfl

theorem foldl_org_title (g : Option (List Char)) (acc : ParsedCard) :
    (List.foldl (fun a l => stepLine l a) acc (optLines "ORG:" g)).title = acc.title := by
  rcases g with _ | ⟨_ | ⟨v0, v⟩⟩ <;> rfl

theorem foldl_org_phone (g : Option (List Char)) (acc : ParsedCard) :
    (List.foldl (fun a l => stepLine l a) acc (optLines "ORG:" g)).phone = acc.phone := by
  rcases g with _ | ⟨_ | ⟨v0, v⟩⟩ <;> rfl

theorem foldl_org_email (g : Option (List Char)) (acc : ParsedCard) :
    (List.foldl (fun a l => stepLine l a) acc (optLines "ORG:" g)).email = acc.email := by
  rcases g with _ | ⟨_ | ⟨v0, v⟩⟩ <;> rfl

theorem foldl_org_website (g : Option (List Char)) (acc : ParsedCard) :
    (List.foldl (fun a l => stepLine l a) acc (optLines "ORG:" g)).website = acc.website := by
  rcases g with _ | ⟨_ | ⟨v0, v⟩⟩ <;> rfl

theorem foldl_org_bio (g : Option (List Char)) (acc : ParsedCard) :
    (List.foldl (fun a l => stepLine l a) acc (optLines "ORG:" g)).bio = acc.bio := by
  rcases g with _ | ⟨_ | ⟨v0, v⟩⟩ <;> rfl

theorem foldl_title_name (g : Option (List Char)) (acc : ParsedCard) :
    (List.foldl (fun a l => stepLine l a) acc (optLines "TITLE:" g)).name = acc.name := by
  rcases g with _ | ⟨_ | ⟨v0, v⟩⟩ <;> rfl

theorem foldl_title_company (g : Option (List Char)) (acc : ParsedCard) :
    (List.foldl (fun a l => stepLine l a) acc (optLines "TITLE:" g)).company = acc.company := by
  rcases g with _ | ⟨_ | ⟨v0, v⟩⟩ <;> rfl

theorem foldl_title_title (g : Option (List Char)) (acc : ParsedCard) :
    (List.foldl (fun a l => stepLine l a) acc (optLines "TITLE:" g)).title
      = match g with
        | some (v0 :: v) =>
          some (unescapeVCardValue (escapeVCardValue (v0 :: v)))
        | _ => acc.title := by
  rcases g with _ | ⟨_ | ⟨v0, v⟩⟩ <;> rfl

theorem foldl_title_phone (g : Option (List Char)) (acc : ParsedCard) :
    (List.foldl (fun a l => stepLine l a) acc (optLines "TITLE:" g)).phone = acc.phone := by
  rcases g with _ | ⟨_ | ⟨v0, v⟩⟩ <;> rfl

theorem foldl_title_email (g : Option (List Char)) (acc : ParsedCard) :
    (List.foldl (fun a l => stepLine l a) acc (optLines "TITLE:" g)).email = acc.email := by
  rcases g with _ | ⟨_ | ⟨v0, v⟩⟩ <;> rfl

theorem foldl_title_website (g : Option (List Char)) (acc : ParsedCard) :
    (List.foldl (fun a l => stepLine l a) acc (optLines "TITLE:" g)).website = acc.website := by
  rcases g with _ | ⟨_ | ⟨v0, v⟩⟩ <;> rfl

theorem foldl_title_bio (g : Option (List Char)) (acc : ParsedCard) :
    (List.foldl (fun a l => stepLine l a) acc (optLines "TITLE:" g)).bio = acc.bio := by
  rcases g with _ | ⟨_ | ⟨v0, v⟩⟩ <;> rfl

theorem foldl_tel_name (g : Option (List Char)) (acc : ParsedCard) :
    (List.foldl (fun a l => stepLine l a) acc (optLines "TEL;TYPE=CELL:" g)).name = acc.name := by
  rcases g with _ | ⟨_ | ⟨v0, v⟩⟩ <;> rfl

theorem foldl_tel_company (g : Option (List Char)) (acc : ParsedCard) :
    (List.foldl (fun a l => stepLine l a) acc (optLines "TEL;TYPE=CELL:" g)).company = acc.company := by
  rcases g with _ | ⟨_ | ⟨v0, v⟩⟩ <;> rfl

theorem foldl_tel_title (g : Option (List Char)) (acc : ParsedCard) :
    (List.foldl (fun a l => stepLine l a) acc (optLines "TEL;TYPE=CELL:" g)).title = acc.title := by
  rcases g with _ | ⟨_ | ⟨v0, v⟩⟩ <;> rfl

theorem foldl_tel_phone (g : Option (List Char)) (acc : ParsedCard) :
    (List.foldl (fun a l => stepLine l a) acc (optLines "TEL;TYPE=CELL:" g)).phone
      = match g with
        | some (v0 :: v) =>
          some (unescapeVCardValue (escapeVCardValue (v0 :: v)))
        | _ => acc.phone := by
  rcases g with _ | ⟨_ | ⟨v0, v⟩⟩ <;> rfl

theorem foldl_tel_email (g : Option (List Char)) (acc : ParsedCard) :
    (List.foldl (fun a l => stepLine l a) acc (optLines "TEL;TYPE=CELL:" g)).email = acc.email := by
  rcases g with _ | ⟨_ | ⟨v0, v⟩⟩ <;> rfl

theorem foldl_tel_website (g : Option (List Char)) (acc : ParsedCard) :
    (List.foldl (fun a l => stepLine l a) acc (optLines "TEL;TYPE=CELL:" g)).website = acc.website := by
  rcases g with _ | ⟨_ | ⟨v0, v⟩⟩ <;> rfl

theorem foldl_tel_bio (g : Option (List Char)) (acc : ParsedCard) :
    (List.foldl (fun a l => stepLine l a) acc (optLines "TEL;TYPE=CELL:" g)).bio = acc.bio := by
  rcases g with _ | ⟨_ | ⟨v0, v⟩⟩ <;> rfl

theorem foldl_email_name (g : Option (List Char)) (acc : ParsedCard) :
    (List.foldl (fun a l => stepLine l a) acc (optLines "EMAIL:" g)).name = acc.name := by
  rcases g with _ | ⟨_ | ⟨v0, v⟩⟩ <;> rfl

theorem foldl_email_company (g : Option (List Char)) (acc : ParsedCard) :
    (List.foldl (fun a l => stepLine l a) acc (optLines "EMAIL:" g)).company = acc.company := by
  rcases g with _ | ⟨_ | ⟨v0, v⟩⟩ <;> rfl

theorem foldl_email_title (g : Option (List Char)) (acc : ParsedCard) :
    (List.foldl (fun a l => stepLine l a) acc (optLines "EMAIL:" g)).title = acc.title := by
  rcases g with _ | ⟨_ | ⟨v0, v⟩⟩ <;> rfl

theorem foldl_email_phone (g : Option (List Char)) (acc : ParsedCard) :
    (List.foldl (fun a l => stepLine l a) acc (optLines "EMAIL:" g)).phone = acc.phone := by
  rcases g with _ | ⟨_ | ⟨v0, v⟩⟩ <;> rfl

theorem foldl_email_email (g : Option (List Char)) (acc : ParsedCard) :
    (List.foldl (fun a l => stepLine l a) acc (optLines "EMAIL:" g)).email
      = match g with
        | some (v0 :: v) =>
          some (unescapeVCardValue (escapeVCardValue (v0 :: v)))
        | _ => acc.email := by
  rcases g with _ | ⟨_ | ⟨v0, v⟩⟩ <;> rfl

theorem foldl_email_website (g : Option (List Char)) (acc : ParsedCard) :
    (List.foldl (fun a l => stepLine l a) acc (optLines "EMAIL:" g)).website = acc.website := by
  rcases g with _ | ⟨_ | ⟨v0, v⟩⟩ <;> rfl

theorem foldl_email_bio (g : Option (List Char)) (acc : ParsedCard) :
    (List.foldl (fun a l => stepLine l a) acc (optLines "EMAIL:" g)).bio = acc.bio := by
  rcases g with _ | ⟨_ | ⟨v0, v⟩⟩ <;> rfl

theorem foldl_url_name (g : Option (List Char)) (acc : ParsedCard) :
    (List.foldl (fun a l => stepLine l a) acc (optLines "URL:" g)).name = acc.name := by
  rcases g with _ | ⟨_ | ⟨v0, v⟩⟩ <;> rfl

theorem foldl_url_company (g : Option (List Char)) (acc : ParsedCard) :
    (List.foldl (fun a l => stepLine l a) acc (optLines "URL:" g)).company = acc.company := by
  rcases g with _ | ⟨_ | ⟨v0, v⟩⟩ <;> rfl

theorem foldl_url_title (g : Option (List Char)) (acc : ParsedCard) :
    (List.foldl (fun a l => stepLine l a) acc (optLines "URL:" g)).title = acc.title := by
  rcases g with _ | ⟨_ | ⟨v0, v⟩⟩ <;> rfl

theorem foldl_url_phone (g : Option (List Char)) (acc : ParsedCard) :
    (List.foldl (fun a l => stepLine l a) acc (optLines "URL:" g)).phone = acc.phone := by
  rcases g with _ | ⟨_ | ⟨v0, v⟩⟩ <;> rfl

theorem foldl_url_email (g : Option (List Char)) (acc : ParsedCard) :
    (List.foldl (fun a l => stepLine l a) acc (optLines "URL:" g)).email = acc.email := by
  rcases g with _ | ⟨_ | ⟨v0, v⟩⟩ <;> rfl

theorem foldl_url_website (g : Option (List Char)) (acc : ParsedCard) :
    (List.foldl (fun a l => stepLine l a) acc (optLines "URL:" g)).website
      = match g with
        | some (v0 :: v) =>
          some (unescapeVCardValue (escapeVCardValue (v0 :: v)))
        | _ => acc.website := by
  rcases g with _ | ⟨_ | ⟨v0, v⟩⟩ <;> rfl

theorem foldl_url_bio (g : Option (List Char)) (acc : ParsedCard) :
    (List.foldl (fun a l => stepLine l a) acc (optLines "URL:" g)).bio = acc.bio := by
  rcases g with _ | ⟨_ | ⟨v0, v⟩⟩ <;> rfl

theorem foldl_li_name (g : Option (List Char)) (acc : ParsedCard) :
    (List.foldl (fun a l => stepLine l a) acc (linkedinLines g)).name = acc.name := by
  rcases g with _ | ⟨_ | ⟨v0, v⟩⟩ <;> rfl

theorem foldl_li_company (g : Option (List Char)) (acc : ParsedCard) :
    (List.foldl (fun a l => stepLine l a) acc (linkedinLines g)).company = acc.company := by
  rcases g with _ | ⟨_ | ⟨v0, v⟩⟩ <;> rfl

theorem foldl_li_title (g : Option (List Char)) (acc : ParsedCard) :
    (List.foldl (fun a l => stepLine l a) acc (linkedinLines g)).title = acc.title := by
  rcases g with _ | ⟨_ | ⟨v0, v⟩⟩ <;> rfl

theorem foldl_li_phone (g : Option (List Char)) (acc : ParsedCard) :
    (List.foldl (fun a l => stepLine l a) acc (linkedinLines g)).phone = acc.phone := by
  rcases g with _ | ⟨_ | ⟨v0, v⟩⟩ <;> rfl

theorem foldl_li_email (g : Option (List Char)) (acc : ParsedCard) :
    (List.foldl (fun a l => stepLine l a) acc (linkedinLines g)).email = acc.email := by
  rcases g with _ | ⟨_ | ⟨v0, v⟩⟩ <;> rfl

theorem foldl_li_website (g : Option (List Char)) (acc : ParsedCard) :
    (List.foldl (fun a l => stepLine l a) acc (linkedinLines g)).website = acc.website := by
  rcases g with _ | ⟨_ | ⟨v0, v⟩⟩ <;> rfl

theorem foldl_li_bio (g : Option (List Char)) (acc : ParsedCard) :
    (List.foldl (fun a l => stepLine l a) acc (linkedinLines g)).bio = acc.bio := by
  rcases g with _ | ⟨_ | ⟨v0, v⟩⟩ <;> rfl

theorem foldl_tw_name (g : Option (List Char)) (acc : ParsedCard) :
    (List.foldl (fun a l => stepLine l a) acc (twitterLines g)).name = acc.name := by
  rcases g with _ | ⟨_ | ⟨v0, v⟩⟩ <;> rfl

theorem foldl_tw_company (g : Option (List Char)) (acc : ParsedCard) :
    (List.foldl (fun a l => stepLine l a) acc (twitterLines g)).company = acc.company := by
  rcases g with _ | ⟨_ | ⟨v0, v⟩⟩ <;> rfl

theorem foldl_tw_title (g : Option (List Char)) (acc : ParsedCard) :
    (List.foldl (fun a l => stepLine l a) acc (twitterLines g)).title = acc.title := by
  rcases g with _ | ⟨_ | ⟨v0, v⟩⟩ <;> rfl

theorem foldl_tw_phone (g : Option (List Char)) (acc : ParsedCard) :
    (List.foldl (fun a l => stepLine l a) acc (twitterLines g)).phone = acc.phone := by
  rcases g with _ | ⟨_ | ⟨v0, v⟩⟩ <;> rfl

theorem foldl_tw_email (g : Option (List Char)) (acc : ParsedCard) :
    (List.foldl (fun a l => stepLine l a) acc (twitterLines g)).email = acc.email := by
  rcases g with _ | ⟨_ | ⟨v0, v⟩⟩ <;> rfl

theorem foldl_tw_website (g : Option (List Char)) (acc : ParsedCard) :
    (List.foldl (fun a l => stepLine l a) acc (twitterLines g)).website = acc.website := by
  rcases g with _ | ⟨_ | ⟨v0, v⟩⟩ <;> rfl

theorem foldl_tw_bio (g : Option (List Char)) (acc : ParsedCard) :
    (List.foldl (fun a l => stepLine l a) acc (twitterLines g)).bio = acc.bio := by
  rcases g with _ | ⟨_ | ⟨v0, v⟩⟩ <;> rfl

theorem foldl_note_name (g : Option (List Char)) (acc : ParsedCard) :
    (List.foldl (fun a l => stepLine l a) acc (optLines "NOTE:" g)).name = acc.name := by
  rcases g with _ | ⟨_ | ⟨v0, v⟩⟩ <;> rfl

theorem foldl_note_company (g : Option (List Char)) (acc : ParsedCard) :
    (List.foldl (fun a l => stepLine l a) acc (optLines "NOTE:" g)).company = acc.company := by
  rcases g with _ | ⟨_ | ⟨v0, v⟩⟩ <;> rfl

theorem foldl_note_title (g : Option (List Char)) (acc : ParsedCard) :
    (List.foldl (fun a l => stepLine l a) acc (optLines "NOTE:" g)).title = acc.title := by
  rcases g with _ | ⟨_ | ⟨v0, v⟩⟩ <;> rfl

theorem foldl_note_phone (g : Option (List Char)) (acc : ParsedCard) :
    (List.foldl (fun a l => stepLine l a) acc (optLines "NOTE:" g)).phone = acc.phone := by
  rcases g with _ | ⟨_ | ⟨v0, v⟩⟩ <;> rfl

theorem foldl_note_email (g : Option (List Char)) (acc : ParsedCard) :
    (List.foldl (fun a l => stepLine l a) acc (optLines "NOTE:" g)).email = acc.email := by
  rcases g with _ | ⟨_ | ⟨v0, v⟩⟩ <;> rfl

theorem foldl_note_website (g : Option (List Char)) (acc : ParsedCard) :
    (List.foldl (fun a l => stepLine l a) acc (optLines "NOTE:" g)).website = acc.website := by
  rcases g with _ | ⟨_ | ⟨v0, v⟩⟩ <;> rfl

theorem foldl_note_bio (g : Option (List Char)) (acc : ParsedCard) :
    (List.foldl (fun a l => stepLine l a) acc (optLines "NOTE:" g)).bio
      = match g with
        | some (v0 :: v) =>
          some (unescapeVCardValue (escapeVCardValue (v0 :: v)))
        | _ => acc.bio := by
  rcases g with _ | ⟨_ | ⟨v0, v⟩⟩ <;> rfl

/-- C1 (amended): for every card with a truthy name whose name, company,
title, phone, email, website, bio, linkedin and twitter values are clean
(no carriage return and no backslash immediately followed by the letter
`n`) and whose photo URI, when a `data:image` URI, has a CR/LF-free
base64 chunk, `generateVCard` succeeds and `parseVCard` of its output
succeeds and recovers the name, and recovers each of company, title,
phone, email, website and bio that is truthy in the input.  (The
unamended claim, quantified over all valid inputs, fails:
`generateVCard_roundtrip_counterexample`.) -/
theorem generateVCard_parseVCard_roundtrip (card : Card)
    (hname : optTruthy card.name = true) (hn : optClean card.name = true)
    (hco : optClean card.company = true) (hti : optClean card.title = true)
    (hph : optClean card.phone = true) (hem : optClean card.email = true)
    (hwe : optClean card.website = true) (hli : optClean card.linkedin = true)
    (htw : optClean card.twitter = true) (hbi : optClean card.bio = true)
    (hpho : photoClean card.photoUri = true) :
    ∃ s p, generateVCard card = some s ∧ parseVCard s = some p ∧
      p.name = card.name ∧
      (optTruthy card.company = true → p.company = card.company) ∧
      (optTruthy card.title = true → p.title = card.title) ∧
      (optTruthy card.phone = true → p.phone = card.phone) ∧
      (optTruthy card.email = true → p.email = card.email) ∧
      (optTruthy card.website = true → p.website = card.website) ∧
      (optTruthy card.bio = true → p.bio = card.bio) := by
  rcases hcn : card.name with _ | ⟨_ | ⟨n0, nrest⟩⟩
  · rw [hcn] at hname; exact absurd hname (by decide)
  · rw [hcn] at hname; exact absurd hname (by decide)
  have hclean : (noCR (n0 :: nrest) && noBackslashN (n0 :: nrest)) = true := by
    rw [hcn] at hn; exact hn
  have hncr : noCR (n0 :: nrest) = true := by
    simp only [Bool.and_eq_true] at hclean; exact hclean.1
  have hnbn : noBackslashN (n0 :: nrest) = true := by
    simp only [Bool.and_eq_true] at hclean; exact hclean.2
  have h1 : vCardLines (n0 :: nrest) card ++ [("END:VCARD".toList : List Char)]
      = ["BEGIN:VCARD".toList, "VERSION:3.0".toList,
          "FN:".toList ++ escapeVCardValue (n0 :: nrest), nContent (n0 :: nrest)]
        ++ (optLines "ORG:" card.company ++ (optLines "TITLE:" card.title ++
          (optLines "TEL;TYPE=CELL:" card.phone ++ (optLines "EMAIL:" card.email ++
            (optLines "URL:" card.website ++ (linkedinLines card.linkedin ++
              (twitterLines card.twitter ++ (optLines "NOTE:" card.bio ++
                (photoLines card.photoUri ++ [("END:VCARD".toList : List Char)])))))))))
      := by
    simp [vCardLines, vCardRest, List.append_assoc]
  refine ⟨joinCRLF (vCardLines (n0 :: nrest) card) ++ "END:VCARD".toList,
    List.foldl (fun a l => stepLine l a) ({} : ParsedCard)
      (vCardLines (n0 :: nrest) card ++ ["END:VCARD".toList]),
    generateVCard_eq card n0 nrest hcn,
    parseVCard_generated card (n0 :: nrest)
      (vCardLines_noCRLF card (n0 :: nrest) hncr hco hti hph hem hwe hli htw hbi hpho)
      (vCardLines_noLeadSpace card (n0 :: nrest)),
    ?_, ?_, ?_, ?_, ?_, ?_, ?_⟩
  · rw [h1]
    simp only [List.foldl_append]
    rw [foldl_single_end, foldl_photoLines, foldl_note_name, foldl_tw_name,
      foldl_li_name, foldl_url_name, foldl_email_name, foldl_tel_name,
      foldl_title_name, foldl_org_name, foldl_head]
    exact congrArg some (escape_unescape_id (n0 :: nrest) hnbn)
  · intro ht
    rcases hw : card.company with _ | ⟨_ | ⟨w0, w⟩⟩
    · rw [hw] at ht; exact absurd ht (by decide)
    · rw [hw] at ht; exact absurd ht (by decide)
    · rw [h1]
      simp only [List.foldl_append]
      rw [foldl_single_end, foldl_photoLines, foldl_note_company, foldl_tw_company,
        foldl_li_company, foldl_url_company, foldl_email_company, foldl_tel_company,
        foldl_title_company, foldl_org_company, foldl_head, hw]
      have hwc : (noCR (w0 :: w) && noBackslashN (w0 :: w)) = true := by
        rw [hw] at hco; exact hco
      exact congrArg some (escape_unescape_id (w0 :: w)
        (by simp only [Bool.and_eq_true] at hwc; exact hwc.2))
  · intro ht
    rcases hw : card.title with _ | ⟨_ | ⟨w0, w⟩⟩
    · rw [hw] at ht; exact absurd ht (by decide)
    · rw [hw] at ht; exact absurd ht (by decide)
    · rw [h1]
      simp only [List.foldl_append]
      rw [foldl_single_end, foldl_photoLines, foldl_note_title, foldl_tw_title,
        foldl_li_title, foldl_url_title, foldl_email_title, foldl_tel_title,
        foldl_title_title, foldl_org_title, foldl_head, hw]
      have hwc : (noCR (w0 :: w) && noBackslashN (w0 :: w)) = true := by
        rw [hw] at hti; exact hti
      exact congrArg some (escape_unescape_id (w0 :: w)
        (by simp only [Bool.and_eq_true] at hwc; exact hwc.2))
  · intro ht
    rcases hw : card.phone with _ | ⟨_ | ⟨w0, w⟩⟩
    · rw [hw] at ht; exact absurd ht (by decide)
    · rw [hw] at ht; exact absurd ht (by decide)
    · rw [h1]
      simp only [List.foldl_append]
      rw [foldl_single_end, foldl_photoLines, foldl_note_phone, foldl_tw_phone,
        foldl_li_phone, foldl_url_phone, foldl_email_phone, foldl_tel_phone,
        foldl_title_phone, foldl_org_phone, foldl_head, hw]
      have hwc : (noCR (w0 :: w) && noBackslashN (w0 :: w)) = true := by
        rw [hw] at hph; exact hph
      exact congrArg some (escape_unescape_id (w0 :: w)
        (by simp only [Bool.and_eq_true] at hwc; exact hwc.2))
  · intro ht
    rcases hw : card.email with _ | ⟨_ | ⟨w0, w⟩⟩
    · rw [hw] at ht; exact absurd ht (by decide)
    · rw [hw] at ht; exact absurd ht (by decide)
    · rw [h1]
      simp only [List.foldl_append]
      rw [foldl_single_end, foldl_photoLines, foldl_note_email, foldl_tw_email,
        foldl_li_email, foldl_url_email, foldl_email_email, foldl_tel_email,
        foldl_title_email, foldl_org_email, foldl_head, hw]
      have hwc : (noCR (w0 :: w) && noBackslashN (w0 :: w)) = true := by
        rw [hw] at hem; exact hem
      exact congrArg some (escape_unescape_id (w0 :: w)
        (by simp only [Bool.and_eq_true] at hwc; exact hwc.2))
  · intro ht
    rcases hw : card.website with _ | ⟨_ | ⟨w0, w⟩⟩
    · rw [hw] at ht; exact absurd ht (by decide)
    · rw [hw] at ht; exact absurd ht (by decide)
    · rw [h1]
      simp only [List.foldl_append]
      rw [foldl_single_end, foldl_photoLines, foldl_note_website, foldl_tw_website,
        foldl_li_website, foldl_url_website, foldl_email_website, foldl_tel_website,
        foldl_title_website, foldl_org_website, foldl_head, hw]
      have hwc : (noCR (w0 :: w) && noBackslashN (w0 :: w)) = true := by
        rw [hw] at hwe; exact hwe
      exact congrArg some (escape_unescape_id (w0 :: w)
        (by simp only [Bool.and_eq_true] at hwc; exact hwc.2))
  · intro ht
    rcases hw : card.bio with _ | ⟨_ | ⟨w0, w⟩⟩
    · rw [hw] at ht; exact absurd ht (by decide)
    · rw [hw] at ht; exact absurd ht (by decide)
    · rw [h1]
      simp only [List.foldl_append]
      rw [foldl_single_end, foldl_photoLines, foldl_note_bio, foldl_tw_bio,
        foldl_li_bio, foldl_url_bio, foldl_email_bio, foldl_tel_bio,
        foldl_title_bio, foldl_org_bio, foldl_head, hw]
      have hwc : (noCR (w0 :: w) && noBackslashN (w0 :: w)) = true := by
        rw [hw] at hbi; exact hbi
      exact congrArg some (escape_unescape_id (w0 :: w)
        (by simp only [Bool.and_eq_true] at hwc; exact hwc.2))

/-- The card of the C1 witness: every field populated and clean, photo a
`data:image` URI. -/
def cardC1w : Card :=
  { name := some "Ada Lovelace".toList, company := some "Acme".toList,
    title := some "CTO".toList, phone := some "+15551234".toList,
    email := some "ada@acme.io".toList, website := some "https://acme.io".toList,
    linkedin := some "adal".toList, twitter := some "@ada".toList,
    bio := some "Pioneer".toList,
    photoUri := some "data:image/png;base64,QUJD".toList }

/-- Witness for the amended C1 theorem at a fully populated clean
card. -/
theorem generateVCard_parseVCard_roundtrip_witness :
    ∃ s p, generateVCard cardC1w = some s ∧ parseVCard s = some p ∧
      p.name = cardC1w.name ∧
      (optTruthy cardC1w.company = true → p.company = cardC1w.company) ∧
      (optTruthy cardC1w.title = true → p.title = cardC1w.title) ∧
      (optTruthy cardC1w.phone = true → p.phone = cardC1w.phone) ∧
      (optTruthy cardC1w.email = true → p.email = cardC1w.email) ∧
      (optTruthy cardC1w.website = true → p.website = cardC1w.website) ∧
      (optTruthy cardC1w.bio = true → p.bio = cardC1w.bio) :=
  generateVCard_parseVCard_roundtrip cardC1w (by decide) (by decide) (by decide)
    (by decide) (by decide) (by decide) (by decide) (by decide) (by decide)
    (by decide) (by decide)

end DropCard
